import Mathlib

/-!
The robovac model-descriptor generator (`generate.js`).

A shallow embedding of the generator script: its static tables, the body of
the per-model loop (feature derivation, placeholder commands, the descriptor
template) and the index template, followed by the properties proved of them.

Modelling conventions

* The three per-series objects of the script (`ROBOVAC_SERIES`,
  `ROBOVAC_SERIES_FEATURES`, `ROBOVAC_SERIES_FAN_SPEEDS`) all have the keys `C`,
  `G`, `L`, `X`, written in that order; the keys are the constructors of
  `Series`, an object is a function on `Series`, `obj[series]` is function
  application and `Object.entries` enumerates the keys in the written order.
* JavaScript arrays of strings are `List String`; `includes` is `List.contains`,
  `push` appends at the end, `unshift` adds at the front, `join` is `join`.
* Where only the elements of an array matter the array is the list of its
  elements; the section on arrays as objects keeps the arrays in a heap, to
  state what `push` does to an array that several holders share.
* A template literal is the concatenation (`concat`) of its literal chunks and
  of its substitutions, in the order in which they are written.
* The `fs.writeFile` calls are collected as a list of `(file name, content)`
  pairs in the order in which they are issued; the file name is the last
  segment handed to `path.join`. Whether a write succeeds is not modelled.
* The path of a write is what `path.join` makes of the directory of the
  script, the three directory names and the file name (`writePath`);
  `path.join` is the POSIX variant of Node.js, which joins its non-empty
  arguments with `/` and normalises the result. The directory of the script,
  `__dirname`, is a parameter.
-/

namespace Robovac

/-! ## Tables -/

/-- Keys of the per-series objects, in the order in which they are written. -/
inductive Series where
  | C
  | G
  | L
  | X
  deriving DecidableEq, Repr

/-- Key order of `Object.entries` on any of the per-series objects. -/
def Series.keys : List Series := [Series.C, Series.G, Series.L, Series.X]

/-- Series membership lists (`generate.js` lines 4-35). -/
def ROBOVAC_SERIES : Series → List String
  | Series.C =>
    [ "T2103", "T2117", "T2118", "T2119", "T2120", "T2123", "T2128", "T2130", "T2132" ]
  | Series.G =>
    [ "T1250", "T2250", "T2251", "T2252", "T2253", "T2254", "T2150", "T2255", "T2256",
      "T2257", "T2258", "T2259", "T2270", "T2272", "T2273" ]
  | Series.L => [ "T2181", "T2182", "T2190", "T2192", "T2193", "T2194" ]
  | Series.X => [ "T2261", "T2262", "T2320" ]

/-- Consumables-capable models (lines 43-56). -/
def HAS_CONSUMABLES : List String :=
  [ "T1250", "T2181", "T2182", "T2190", "T2193", "T2194", "T2253", "T2256", "T2258",
    "T2261", "T2273", "T2320" ]

/-- Base device feature tags of each series (lines 58-84). -/
def ROBOVAC_SERIES_FEATURES : Series → List String
  | Series.C => [ "RoboVacEntityFeature.EDGE", "RoboVacEntityFeature.SMALL_ROOM" ]
  | Series.G =>
    [ "RoboVacEntityFeature.CLEANING_TIME",
      "RoboVacEntityFeature.CLEANING_AREA",
      "RoboVacEntityFeature.DO_NOT_DISTURB",
      "RoboVacEntityFeature.AUTO_RETURN" ]
  | Series.L =>
    [ "RoboVacEntityFeature.CLEANING_TIME",
      "RoboVacEntityFeature.CLEANING_AREA",
      "RoboVacEntityFeature.DO_NOT_DISTURB",
      "RoboVacEntityFeature.AUTO_RETURN",
      "RoboVacEntityFeature.ROOM",
      "RoboVacEntityFeature.ZONE",
      "RoboVacEntityFeature.BOOST_IQ" ]
  | Series.X =>
    [ "RoboVacEntityFeature.CLEANING_TIME",
      "RoboVacEntityFeature.CLEANING_AREA",
      "RoboVacEntityFeature.DO_NOT_DISTURB",
      "RoboVacEntityFeature.AUTO_RETURN",
      "RoboVacEntityFeature.ROOM",
      "RoboVacEntityFeature.ZONE",
      "RoboVacEntityFeature.BOOST_IQ" ]

/-- Fan-speed labels of each series (lines 86-91). -/
def ROBOVAC_SERIES_FAN_SPEEDS : Series → List String
  | Series.C => [ "No_Suction", "Standard", "Boost_IQ", "Max" ]
  | Series.G => [ "Standard", "Turbo", "Max", "Boost_IQ" ]
  | Series.L => [ "Quiet", "Standard", "Turbo", "Max" ]
  | Series.X => [ "Pure", "Standard", "Turbo", "Max" ]

/-- The six command names that may get a placeholder entry (lines 93-100). -/
def commands : List String :=
  [ "CLEANING_AREA", "CLEANING_TIME", "AUTO_RETURN", "DO_NOT_DISTURB", "BOOST_IQ",
    "CONSUMABLES" ]

/-- The tables the script reads, as one value. `HAS_MAP_FEATURE` is not a
field: the script computes it from `ROBOVAC_SERIES` (see `HAS_MAP_FEATURE`). -/
structure Tables where
  ROBOVAC_SERIES : Series → List String
  HAS_CONSUMABLES : List String
  ROBOVAC_SERIES_FEATURES : Series → List String
  ROBOVAC_SERIES_FAN_SPEEDS : Series → List String
  commands : List String

/-- The tables as written in `generate.js`. -/
def tables : Tables where
  ROBOVAC_SERIES := ROBOVAC_SERIES
  HAS_CONSUMABLES := HAS_CONSUMABLES
  ROBOVAC_SERIES_FEATURES := ROBOVAC_SERIES_FEATURES
  ROBOVAC_SERIES_FAN_SPEEDS := ROBOVAC_SERIES_FAN_SPEEDS
  commands := commands

/-- Map-capable models (lines 37-41): `"T2253"`, then series `L`, then series `X`. -/
def HAS_MAP_FEATURE (T : Tables) : List String :=
  "T2253" :: (T.ROBOVAC_SERIES Series.L ++ T.ROBOVAC_SERIES Series.X)

/-! ## Strings -/

/-- Concatenation of the pieces of a template literal, from left to right. -/
def concat : List String → String
  | [] => ""
  | x :: xs => x ++ concat xs

/-- The method `Array.prototype.join`: the elements with the separator between
neighbours. -/
def join (sep : String) : List String → String
  | [] => ""
  | [x] => x
  | x :: y :: rest => x ++ (sep ++ join sep (y :: rest))

/-! ## `JSON.stringify` on an array of strings -/

/-- Lower-case hexadecimal digit of a number below 16. -/
def hexDigit (n : Nat) : Char :=
  if n < 10 then Char.ofNat (48 + n) else Char.ofNat (87 + n)

/-- Escape of one character inside a JSON string (ECMAScript `QuoteJSONString`). -/
def jsonEscape (c : Char) : String :=
  if c = '\x08' then "\\b"
  else if c = '\t' then "\\t"
  else if c = '\n' then "\\n"
  else if c = '\x0c' then "\\f"
  else if c = '\r' then "\\r"
  else if c = '"' then "\\\""
  else if c = '\\' then "\\\\"
  else if c.toNat < 32 then
    "\\u00" ++ String.singleton (hexDigit (c.toNat / 16))
      ++ String.singleton (hexDigit (c.toNat % 16))
  else String.singleton c

/-- The value of `JSON.stringify` on a string: the escaped characters between
double quotes. -/
def jsonQuote (s : String) : String :=
  concat ["\"", concat (s.data.map jsonEscape), "\""]

/-- The value of `JSON.stringify` on an array of strings: the quoted elements
between brackets, separated by commas without blanks. -/
def JSON_stringify (xs : List String) : String :=
  concat ["[", join "," (xs.map jsonQuote), "]"]

/-! ## Body of the per-model loop (lines 104-186) -/

/-- Lines 109-125: the ten baseline tags, then the map tag for a map-capable model. -/
def homeassistant_features (T : Tables) (model : String) : List String :=
  let base :=
    [ "VacuumEntityFeature.BATTERY",
      "VacuumEntityFeature.CLEAN_SPOT",
      "VacuumEntityFeature.FAN_SPEED",
      "VacuumEntityFeature.LOCATE",
      "VacuumEntityFeature.PAUSE",
      "VacuumEntityFeature.RETURN_HOME",
      "VacuumEntityFeature.SEND_COMMAND",
      "VacuumEntityFeature.START",
      "VacuumEntityFeature.STATE",
      "VacuumEntityFeature.STOP" ]
  if (HAS_MAP_FEATURE T).contains model then base ++ ["VacuumEntityFeature.MAP"] else base

/-- Lines 108, 122-129: a copy of the series base list, then the map tag, then
the consumables tag. -/
def robovac_features (T : Tables) (series : Series) (model : String) : List String :=
  let f0 := T.ROBOVAC_SERIES_FEATURES series
  let f1 := if (HAS_MAP_FEATURE T).contains model then f0 ++ ["RoboVacEntityFeature.MAP"] else f0
  if T.HAS_CONSUMABLES.contains model then f1 ++ ["RoboVacEntityFeature.CONSUMABLES"] else f1

/-- The placeholder line of a command name (line 135). -/
def placeholder (command : String) : String :=
  concat ["# RobovacCommand.", command, ": 0,"]

/-- The marker put in front of a non-empty placeholder list (line 138). -/
def marker : String := "# These commands need codes adding"

/-- Lines 131-139: filter the command names by the derived feature list, map
them to placeholder lines, and put the marker in front when any is left. -/
def extra_commands (T : Tables) (series : Series) (model : String) : List String :=
  let e :=
    (T.commands.filter fun command =>
        (robovac_features T series model).contains
          (concat ["RoboVacEntityFeature.", command])).map
      placeholder
  if e.length > 0 then marker :: e else e

/-- Lines 141-149 of the descriptor template: the imports, the class line and
the two feature expressions. -/
def fileHead (model : String) (homeassistant_features robovac_features : List String) :
    String :=
  concat
    [ "from homeassistant.components.vacuum import VacuumEntityFeature\n",
      "from .base import RoboVacEntityFeature, RobovacCommand\n",
      "\n",
      "\n",
      "class ", model, ":\n",
      "    homeassistant_features = (\n",
      "        ", join "\n        | " homeassistant_features, "\n",
      "    )\n",
      "    robovac_features = ", join " | " robovac_features, "\n" ]

/-- Lines 150-168 of the descriptor template: the opening of `commands` and its
nine fixed entries; `values` is the text substituted at line 164. -/
def fileCommands (values : String) : String :=
  concat
    [ "    commands = \x7b\n",
      "        RobovacCommand.PAUSE: 2,\n",
      "        RobovacCommand.DIRECTION: \x7b\n",
      "            \"code\": 3,\n",
      "            \"values\": [\"forward\", \"back\", \"left\", \"right\"],\n",
      "        \x7d,\n",
      "        RobovacCommand.MODE: \x7b\n",
      "            \"code\": 5,\n",
      "            \"values\": [\"auto\", \"SmallRoom\", \"Spot\", \"Edge\", \"Nosweep\"],\n",
      "        \x7d,\n",
      "        RobovacCommand.STATUS: 15,\n",
      "        RobovacCommand.RETURN_HOME: 101,\n",
      "        RobovacCommand.FAN_SPEED: \x7b\n",
      "            \"code\": 102,\n",
      "            \"values\": ", values, ",\n",
      "        \x7d,\n",
      "        RobovacCommand.LOCATE: 103,\n",
      "        RobovacCommand.BATTERY: 104,\n",
      "        RobovacCommand.ERROR: 106," ]

/-- Lines 168-172 of the descriptor template: the substitution that renders the
placeholder lines, each on a line of its own, or nothing when there is none. -/
def fileExtra (extra_commands : List String) : String :=
  if extra_commands.length > 0
    then concat ["\n        ", join "\n        " extra_commands]
    else ""

/-- Lines 141-174: the descriptor template. -/
def file (T : Tables) (series : Series) (model : String) : String :=
  concat
    [ fileHead model (homeassistant_features T model) (robovac_features T series model),
      fileCommands (JSON_stringify (T.ROBOVAC_SERIES_FAN_SPEEDS series)),
      fileExtra (extra_commands T series model),
      "\n",
      "    \x7d\n" ]

/-! ## The loop and the index (lines 102-106, 175-206) -/

/-- The list `Object.entries(ROBOVAC_SERIES)` of line 104. -/
def entries (T : Tables) : List (Series × List String) :=
  Series.keys.map fun series => (series, T.ROBOVAC_SERIES series)

/-- Lines 102-106: every model pushed, series by series. -/
def allModels (T : Tables) : List String :=
  (entries T).flatMap fun e => e.2

/-- Lines 175-184: the descriptor writes, in the order in which they are issued,
each with the last argument that line 181 hands to `path.join`; the path that
`path.join` makes of it is `writePath`, and `modelFiles` has the writes with
their paths. -/
def modelWrites (T : Tables) : List (String × String) :=
  (entries T).flatMap fun e => e.2.map fun model => (concat [model, ".py"], file T e.1 model)

/-- Line 189: the import line of a model. -/
def importLine (model : String) : String :=
  concat ["from .", model, " import ", model]

/-- Line 194: the `ROBOVAC_MODELS` entry of a model. -/
def modelEntry (model : String) : String :=
  concat ["    \"", model, "\": ", model]

/-- Lines 188-195: the index template. -/
def initFile (T : Tables) : String :=
  concat
    [ join "\n" ((allModels T).map importLine), "\n",
      "\n",
      "\n",
      "ROBOVAC_MODELS = \x7b\n",
      join ",\n" ((allModels T).map modelEntry), "\n",
      "\x7d" ]

/-- Lines 197-206: the index write. -/
def initWrite (T : Tables) : String × String :=
  ("__init__.py", initFile T)

/-- Every `fs.writeFile` call of one run, in issue order. -/
def generate (T : Tables) : List (String × String) :=
  modelWrites T ++ [initWrite T]

/-! ## The paths of the writes (`path.join`, lines 176-182 and 198-204)

The function `path.join` of Node.js in its POSIX variant: `join` puts `/`
between its non-empty arguments and hands the text to `normalize`, whose helper
`normalizeString` reads the segments between the separators from left to
right. -/

/-- The segments of a path, read from the characters that are left: the pieces
between the separators `/`; `cur` holds the characters of the segment being
read, last one first. -/
def segmentsAux (cur : List Char) : List Char → List String
  | [] => [String.mk cur.reverse]
  | c :: cs =>
    if c = '/' then String.mk cur.reverse :: segmentsAux [] cs else segmentsAux (c :: cur) cs

/-- The segments of a path: the pieces between its separators `/`. -/
def segments (path : String) : List String := segmentsAux [] path.data

/-- One segment read by `normalizeString`; `kept` holds the segments kept so
far, last one first. An empty segment and `.` are skipped; `..` drops the last
kept segment, unless there is none or it is `..` itself, in which case `..` is
kept when `allowAboveRoot` holds and skipped otherwise; any other segment is
kept. -/
def normalizeStep (allowAboveRoot : Bool) (kept : List String) (segment : String) :
    List String :=
  if segment = "" ∨ segment = "." then kept
  else if segment = ".." then
    match kept with
    | [] => if allowAboveRoot then [".."] else []
    | last :: rest =>
      if last = ".." then (if allowAboveRoot then ".." :: kept else kept) else rest
  else segment :: kept

/-- The segments that `normalizeString` keeps, first one first. -/
def keptSegments (allowAboveRoot : Bool) (path : String) : List String :=
  ((segments path).foldl (normalizeStep allowAboveRoot) []).reverse

/-- The last lines of `normalize`: the kept segments joined with `/`, with the
leading separator of an absolute path and the trailing separator put back. -/
def renderPath (isAbsolute trailingSeparator : Bool) (kept : List String) : String :=
  let path := join "/" kept
  if path = "" then
    if isAbsolute then "/" else if trailingSeparator then "./" else "."
  else
    concat [if isAbsolute then "/" else "", path, if trailingSeparator then "/" else ""]

/-- The function `path.posix.normalize`. -/
def normalize (path : String) : String :=
  if path = "" then "."
  else
    let isAbsolute := decide (path.data.head? = some '/')
    let trailingSeparator := decide (path.data.getLast? = some '/')
    renderPath isAbsolute trailingSeparator (keptSegments (!isAbsolute) path)

/-- The function `path.posix.join` on a list of arguments. -/
def pathJoin (args : List String) : String :=
  let parts := args.filter fun arg => decide (arg ≠ "")
  if parts = [] then "." else normalize (join "/" parts)

/-- Lines 176-182 and 198-204: the path of the write of a file name. -/
def writePath (dirname name : String) : String :=
  pathJoin [dirname, "custom_components", "robovac", "vacuums", name]

/-- The directory that the script writes into. -/
def vacuumsDir (dirname : String) : String :=
  pathJoin [dirname, "custom_components", "robovac", "vacuums"]

/-- Lines 175-184: the descriptor writes with their paths. -/
def modelFiles (dirname : String) (T : Tables) : List (String × String) :=
  (modelWrites T).map fun w => (writePath dirname w.1, w.2)

/-- Every `fs.writeFile` call of one run with its path, in issue order. -/
def filesWritten (dirname : String) (T : Tables) : List (String × String) :=
  (generate T).map fun w => (writePath dirname w.1, w.2)

/-! ## The feature derivation with arrays as objects (lines 108, 122-129)

JavaScript arrays are objects: a `push` changes the array object it is called
on, for every holder of that object. This section keeps the array objects in a
heap, so that what the loop body does to the shared lists of
`ROBOVAC_SERIES_FEATURES` can be stated. -/

/-- The array objects of a run, by address. -/
structure Heap where
  cells : List (List String)

/-- The elements of the array object at an address. -/
def Heap.read (h : Heap) (a : Nat) : List String :=
  h.cells.getD a []

/-- A new array object with the given elements; its address is returned. -/
def Heap.alloc (h : Heap) (xs : List String) : Heap × Nat :=
  (Heap.mk (h.cells ++ [xs]), h.cells.length)

/-- The method `push` on the array object at an address. -/
def Heap.push (h : Heap) (a : Nat) (x : String) : Heap :=
  Heap.mk (h.cells.set a (h.read a ++ [x]))

/-- Lines 108 and 122-129 on the heap: `base` gives the address of the list
stored under each key of `ROBOVAC_SERIES_FEATURES`; the spread of line 108
makes a new array object, which the two `push` calls change. The result is the
heap after the statements and the address of `robovac_features`. -/
def deriveFeatures (T : Tables) (base : Series → Nat) (h : Heap) (series : Series)
    (model : String) : Heap × Nat :=
  let (h1, robovac_features) := h.alloc (h.read (base series))
  let h2 :=
    if (HAS_MAP_FEATURE T).contains model
      then h1.push robovac_features "RoboVacEntityFeature.MAP" else h1
  let h3 :=
    if T.HAS_CONSUMABLES.contains model
      then h2.push robovac_features "RoboVacEntityFeature.CONSUMABLES" else h2
  (h3, robovac_features)

/-- The heap before the loop starts: the four lists of
`ROBOVAC_SERIES_FEATURES`, in key order. -/
def initialHeap (T : Tables) : Heap :=
  Heap.mk (Series.keys.map T.ROBOVAC_SERIES_FEATURES)

/-- The address in `initialHeap` of the list under a key of
`ROBOVAC_SERIES_FEATURES`. -/
def featuresAddress : Series → Nat
  | Series.C => 0
  | Series.G => 1
  | Series.L => 2
  | Series.X => 3

set_option maxRecDepth 100000

/-! ## Vocabulary of the properties -/

/-- A text occurs in another when its characters are a contiguous block of it. -/
def occursIn (p s : String) : Prop := p.data <:+: s.data

instance (p s : String) : Decidable (occursIn p s) :=
  inferInstanceAs (Decidable (p.data <:+: s.data))

/-- The lines of a text, read from the characters that are left; `cur` holds
the characters of the line being read, last one first. -/
def linesAux (cur : List Char) : List Char → List String
  | [] => [String.mk cur.reverse]
  | c :: cs =>
    if c = '\n' then String.mk cur.reverse :: linesAux [] cs else linesAux (c :: cur) cs

/-- The lines of a text: the pieces between its line breaks. -/
def lines (s : String) : List String := linesAux [] s.data

/-- The tables after the identifier `n` has been added to the membership list
of series `s0`, in front of the element at position `k` (at the end when the
list has no such position); nothing else is changed. -/
def addModel (T : Tables) (s0 : Series) (k : Nat) (n : String) : Tables :=
  { T with
    ROBOVAC_SERIES := fun s =>
      if s = s0 then (T.ROBOVAC_SERIES s).take k ++ n :: (T.ROBOVAC_SERIES s).drop k
      else T.ROBOVAC_SERIES s }

/-- Number of places of a list of characters at which the characters of `p`
start. -/
def countOccAux (p : List Char) : List Char → Nat
  | [] => if p.isEmpty then 1 else 0
  | c :: s => (if p.isPrefixOf (c :: s) then 1 else 0) + countOccAux p s

/-- Number of occurrences of a text in another, overlapping ones included. -/
def occurrences (p s : String) : Nat := countOccAux p.data s.data

/-! ## Lemmas on strings -/

@[simp] theorem concat_nil : concat [] = "" := rfl

@[simp] theorem concat_cons (x : String) (xs : List String) :
    concat (x :: xs) = x ++ concat xs := rfl

theorem data_concat (xs : List String) : (concat xs).data = (xs.map String.data).flatten := by
  induction xs with
  | nil => rfl
  | cons x xs ih => simp [ih]

theorem sep_join (sep : String) (xs : List String) (h : xs ≠ []) :
    sep ++ join sep xs = concat (xs.map fun x => sep ++ x) := by
  induction xs with
  | nil => exact absurd rfl h
  | cons x xs ih =>
    cases xs with
    | nil => simp [join]
    | cons y ys =>
      show sep ++ (x ++ (sep ++ join sep (y :: ys)))
        = (sep ++ x) ++ concat ((y :: ys).map fun x => sep ++ x)
      rw [ih (by simp), String.append_assoc]

theorem occursIn_concat_of_mem (f : String → String) (xs : List String) (x : String)
    (h : x ∈ xs) : occursIn (f x) (concat (xs.map f)) := by
  obtain ⟨l, r, rfl⟩ := List.append_of_mem h
  refine ⟨(concat (l.map f)).data, (concat (r.map f)).data, ?_⟩
  simp [data_concat]

theorem occursIn_append {p s : String} (a b : String) (h : occursIn p s) :
    occursIn p (a ++ (s ++ b)) := by
  obtain ⟨u, v, huv⟩ := h
  refine ⟨a.data ++ u, v ++ b.data, ?_⟩
  simp [← huv]

theorem contains_iff {l : List String} {a : String} : l.contains a = true ↔ a ∈ l := by
  simp [List.contains]

theorem placeholder_injective {c d : String} (h : placeholder c = placeholder d) : c = d := by
  have h2 := congrArg String.data h
  simp only [placeholder, concat_cons, concat_nil, String.data_append, List.append_assoc] at h2
  exact String.ext (List.append_cancel_right (List.append_cancel_left h2))

theorem marker_ne_placeholder (c : String) : marker ≠ placeholder c := by
  intro h
  have h2 := congrArg (fun s => s.data.take 3) h
  simp [placeholder, marker] at h2

/-! ## Lemmas on the feature derivation -/

theorem mem_homeassistant_features_map (T : Tables) (m : String) :
    "VacuumEntityFeature.MAP" ∈ homeassistant_features T m ↔ m ∈ HAS_MAP_FEATURE T := by
  unfold homeassistant_features
  by_cases h : m ∈ HAS_MAP_FEATURE T
  · simp [h]
  · simp only [contains_iff, h, if_false, iff_false]
    decide

theorem mem_robovac_features (T : Tables) (s : Series) (m x : String) :
    x ∈ robovac_features T s m ↔
      x ∈ T.ROBOVAC_SERIES_FEATURES s
        ∨ (x = "RoboVacEntityFeature.MAP" ∧ m ∈ HAS_MAP_FEATURE T)
        ∨ (x = "RoboVacEntityFeature.CONSUMABLES" ∧ m ∈ T.HAS_CONSUMABLES) := by
  unfold robovac_features
  by_cases h1 : m ∈ HAS_MAP_FEATURE T <;> by_cases h2 : m ∈ T.HAS_CONSUMABLES <;>
    simp [h1, h2, or_assoc]

theorem map_not_base (s : Series) :
    "RoboVacEntityFeature.MAP" ∉ ROBOVAC_SERIES_FEATURES s := by
  cases s <;> decide

theorem consumables_not_base (s : Series) :
    "RoboVacEntityFeature.CONSUMABLES" ∉ ROBOVAC_SERIES_FEATURES s := by
  cases s <;> decide

/-! ## Lemmas on the placeholder list -/

theorem mem_extra_commands (T : Tables) (s : Series) (m l : String) :
    l ∈ extra_commands T s m ↔
      (l = marker ∧
          ∃ c ∈ T.commands, concat ["RoboVacEntityFeature.", c] ∈ robovac_features T s m)
        ∨ ∃ c ∈ T.commands,
            concat ["RoboVacEntityFeature.", c] ∈ robovac_features T s m ∧ l = placeholder c := by
  unfold extra_commands
  simp only []
  split
  · rename_i h
    have hne : ∃ c ∈ T.commands,
        concat ["RoboVacEntityFeature.", c] ∈ robovac_features T s m := by
      obtain ⟨x, hx⟩ := List.exists_mem_of_length_pos h
      simp only [List.mem_map, List.mem_filter, contains_iff] at hx
      obtain ⟨c, ⟨hc, hf⟩, -⟩ := hx
      exact ⟨c, hc, hf⟩
    simp only [List.mem_cons, List.mem_map, List.mem_filter, contains_iff]
    constructor
    · rintro (h1 | ⟨c, ⟨hc, hf⟩, rfl⟩)
      · exact Or.inl ⟨h1, hne⟩
      · exact Or.inr ⟨c, hc, hf, rfl⟩
    · rintro (⟨h1, -⟩ | ⟨c, hc, hf, rfl⟩)
      · exact Or.inl h1
      · exact Or.inr ⟨c, ⟨hc, hf⟩, rfl⟩
  · rename_i h
    simp only [List.mem_map, List.mem_filter, contains_iff]
    constructor
    · rintro ⟨c, ⟨hc, hf⟩, rfl⟩
      exact Or.inr ⟨c, hc, hf, rfl⟩
    · rintro (⟨-, c, hc, hf⟩ | ⟨c, hc, hf, rfl⟩)
      · exfalso
        apply h
        apply List.length_pos_of_mem
        exact List.mem_map_of_mem placeholder (List.mem_filter.mpr ⟨hc, by simpa using hf⟩)
      · exact ⟨c, ⟨hc, hf⟩, rfl⟩

theorem placeholder_mem_extra_commands (T : Tables) (s : Series) (m c : String) :
    placeholder c ∈ extra_commands T s m ↔
      c ∈ T.commands ∧ concat ["RoboVacEntityFeature.", c] ∈ robovac_features T s m := by
  rw [mem_extra_commands]
  constructor
  · rintro (⟨h, -⟩ | ⟨d, hd, hf, h⟩)
    · exact absurd h.symm (marker_ne_placeholder c)
    · cases placeholder_injective h
      exact ⟨hd, hf⟩
  · rintro ⟨hc, hf⟩
    exact Or.inr ⟨c, hc, hf, rfl⟩

/-- The descriptor ends with its placeholder lines, each after a line break and
eight blanks, and the closing brace of `commands`. -/
theorem file_eq_extra (T : Tables) (s : Series) (m : String) :
    file T s m =
      (fileHead m (homeassistant_features T m) (robovac_features T s m)
          ++ fileCommands (JSON_stringify (T.ROBOVAC_SERIES_FAN_SPEEDS s)))
        ++ (concat ((extra_commands T s m).map fun l => "\n        " ++ l) ++ "\n    \x7d\n") := by
  have h : fileExtra (extra_commands T s m)
      = concat ((extra_commands T s m).map fun l => "\n        " ++ l) := by
    unfold fileExtra
    split
    · rename_i hl
      rw [concat_cons, concat_cons, concat_nil, String.append_empty]
      exact sep_join _ _ (List.ne_nil_of_length_pos hl)
    · rename_i hl
      have : extra_commands T s m = [] := List.eq_nil_of_length_eq_zero (by omega)
      rw [this]
      rfl
  unfold file
  rw [h]
  simp only [concat_cons, concat_nil, String.append_empty, String.append_assoc]
  rfl

theorem occursIn_file_of_mem_extra (T : Tables) (s : Series) (m l : String)
    (h : l ∈ extra_commands T s m) : occursIn ("\n        " ++ l) (file T s m) := by
  rw [file_eq_extra]
  exact occursIn_append _ _ (occursIn_concat_of_mem (fun l => "\n        " ++ l) _ l h)

/-! ## Where the comment character can occur -/

theorem not_mem_data_concat (c : Char) (xs : List String) (h : ∀ x ∈ xs, c ∉ x.data) :
    c ∉ (concat xs).data := by
  rw [data_concat]
  intro hc
  obtain ⟨l, hl, hcl⟩ := List.mem_flatten.mp hc
  obtain ⟨x, hx, rfl⟩ := List.mem_map.mp hl
  exact h x hx hcl

theorem not_mem_data_join (c : Char) (sep : String) (xs : List String)
    (hsep : c ∉ sep.data) (h : ∀ x ∈ xs, c ∉ x.data) : c ∉ (join sep xs).data := by
  induction xs with
  | nil => simp [join]
  | cons x xs ih =>
    cases xs with
    | nil => simpa [join] using h
    | cons y ys =>
      have h1 : c ∉ x.data := h x (by simp)
      have h2 : c ∉ (join sep (y :: ys)).data := ih fun z hz => h z (List.mem_cons_of_mem _ hz)
      simp only [join, String.data_append, List.mem_append, not_or]
      exact ⟨h1, hsep, h2⟩

theorem hash_not_mem_fileHead (m : String) (ha rf : List String) (hm : '#' ∉ m.data)
    (hha : ∀ x ∈ ha, '#' ∉ x.data) (hrf : ∀ x ∈ rf, '#' ∉ x.data) :
    '#' ∉ (fileHead m ha rf).data := by
  unfold fileHead
  apply not_mem_data_concat
  simp only [List.forall_mem_cons]
  refine ⟨by decide, by decide, by decide, by decide, by decide, hm, by decide, by decide,
    by decide, not_mem_data_join _ _ _ (by decide) hha, by decide, by decide, by decide,
    not_mem_data_join _ _ _ (by decide) hrf, by decide, ?_⟩
  simp

theorem hash_not_mem_fileCommands (values : String) (h : '#' ∉ values.data) :
    '#' ∉ (fileCommands values).data := by
  unfold fileCommands
  apply not_mem_data_concat
  simp only [List.forall_mem_cons]
  refine ⟨by decide, by decide, by decide, by decide, by decide, by decide, by decide,
    by decide, by decide, by decide, by decide, by decide, by decide, by decide, by decide,
    h, by decide, by decide, by decide, by decide, by decide, ?_⟩
  simp

theorem hash_not_mem_model (s : Series) (m : String) (hm : m ∈ ROBOVAC_SERIES s) :
    '#' ∉ m.data := by
  revert m
  cases s <;> decide

theorem hash_not_mem_homeassistant_features (T : Tables) (m x : String)
    (hx : x ∈ homeassistant_features T m) : '#' ∉ x.data := by
  revert x
  unfold homeassistant_features
  split <;> decide

theorem hash_not_mem_robovac_features (s : Series) (m x : String)
    (hx : x ∈ robovac_features tables s m) : '#' ∉ x.data := by
  rcases (mem_robovac_features tables s m x).mp hx with h | ⟨rfl, -⟩ | ⟨rfl, -⟩
  · clear hx
    revert x
    cases s <;> decide
  · decide
  · decide

theorem hash_not_mem_fan_speeds (s : Series) :
    '#' ∉ (JSON_stringify (ROBOVAC_SERIES_FAN_SPEEDS s)).data := by
  cases s <;> decide

/-- Up to the `ERROR` entry a descriptor of a listed model has no comment character. -/
theorem hash_not_mem_pre (s : Series) (m : String) (hm : m ∈ ROBOVAC_SERIES s) :
    '#' ∉ (fileHead m (homeassistant_features tables m) (robovac_features tables s m)
        ++ fileCommands (JSON_stringify (tables.ROBOVAC_SERIES_FAN_SPEEDS s))).data := by
  rw [String.data_append, List.mem_append, not_or]
  exact ⟨hash_not_mem_fileHead m _ _ (hash_not_mem_model s m hm)
      (fun x hx => hash_not_mem_homeassistant_features tables m x hx)
      (fun x hx => hash_not_mem_robovac_features s m x hx),
    hash_not_mem_fileCommands _ (hash_not_mem_fan_speeds s)⟩

/-- A text that starts with a character absent from `a` and occurs in `a ++ b`
occurs in `b`. -/
theorem occursIn_right_of_head_not_mem {p a b : String} (c : Char) (q : List Char)
    (hp : p.data = c :: q) (ha : c ∉ a.data) (h : occursIn p (a ++ b)) : occursIn p b := by
  obtain ⟨u, v, huv⟩ := h
  rw [String.data_append, hp, List.append_assoc] at huv
  rcases List.append_eq_append_iff.mp huv with ⟨w, hw, hb⟩ | ⟨w, hw, hb⟩
  · cases w with
    | nil =>
      refine ⟨[], v, ?_⟩
      rw [hp]
      simpa using hb
    | cons d w =>
      exfalso
      apply ha
      rw [hw]
      simp only [List.cons_append] at hb
      have : c = d := by injection hb
      subst this
      simp
  · refine ⟨w, v, ?_⟩
    rw [hp, hb, List.append_assoc]

/-! ## The placeholder list of each series -/

theorem extra_commands_C (m : String) :
    extra_commands tables Series.C m =
      if m ∈ HAS_CONSUMABLES then [marker, placeholder "CONSUMABLES"] else [] := by
  have e : tables.HAS_CONSUMABLES = HAS_CONSUMABLES := rfl
  unfold extra_commands robovac_features
  by_cases h1 : m ∈ HAS_MAP_FEATURE tables <;> by_cases h2 : m ∈ HAS_CONSUMABLES <;>
    simp only [contains_iff, e, h1, h2, if_true, if_false] <;> decide!

theorem extra_commands_G (m : String) :
    extra_commands tables Series.G m =
      marker :: placeholder "CLEANING_AREA" :: placeholder "CLEANING_TIME"
        :: placeholder "AUTO_RETURN" :: placeholder "DO_NOT_DISTURB"
        :: (if m ∈ HAS_CONSUMABLES then [placeholder "CONSUMABLES"] else []) := by
  have e : tables.HAS_CONSUMABLES = HAS_CONSUMABLES := rfl
  unfold extra_commands robovac_features
  by_cases h1 : m ∈ HAS_MAP_FEATURE tables <;> by_cases h2 : m ∈ HAS_CONSUMABLES <;>
    simp only [contains_iff, e, h1, h2, if_true, if_false] <;> decide!

theorem extra_commands_L (m : String) :
    extra_commands tables Series.L m =
      marker :: placeholder "CLEANING_AREA" :: placeholder "CLEANING_TIME"
        :: placeholder "AUTO_RETURN" :: placeholder "DO_NOT_DISTURB" :: placeholder "BOOST_IQ"
        :: (if m ∈ HAS_CONSUMABLES then [placeholder "CONSUMABLES"] else []) := by
  have e : tables.HAS_CONSUMABLES = HAS_CONSUMABLES := rfl
  unfold extra_commands robovac_features
  by_cases h1 : m ∈ HAS_MAP_FEATURE tables <;> by_cases h2 : m ∈ HAS_CONSUMABLES <;>
    simp only [contains_iff, e, h1, h2, if_true, if_false] <;> decide!

theorem extra_commands_X (m : String) :
    extra_commands tables Series.X m =
      marker :: placeholder "CLEANING_AREA" :: placeholder "CLEANING_TIME"
        :: placeholder "AUTO_RETURN" :: placeholder "DO_NOT_DISTURB" :: placeholder "BOOST_IQ"
        :: (if m ∈ HAS_CONSUMABLES then [placeholder "CONSUMABLES"] else []) := by
  have e : tables.HAS_CONSUMABLES = HAS_CONSUMABLES := rfl
  unfold extra_commands robovac_features
  by_cases h1 : m ∈ HAS_MAP_FEATURE tables <;> by_cases h2 : m ∈ HAS_CONSUMABLES <;>
    simp only [contains_iff, e, h1, h2, if_true, if_false] <;> decide!

theorem placeholder_mem_of_occursIn (s : Series) (m c : String) (hm : m ∈ ROBOVAC_SERIES s)
    (hc : c ∈ commands) (h : occursIn (placeholder c) (file tables s m)) :
    placeholder c ∈ extra_commands tables s m := by
  rw [file_eq_extra] at h
  have h2 := occursIn_right_of_head_not_mem '#' _ rfl (hash_not_mem_pre s m hm) h
  clear h
  revert h2
  simp only [commands, List.mem_cons, List.mem_singleton, List.not_mem_nil, or_false] at hc
  cases s
  · rw [extra_commands_C]
    by_cases hk : m ∈ HAS_CONSUMABLES <;> simp only [hk, if_true, if_false] <;>
      rcases hc with rfl | rfl | rfl | rfl | rfl | rfl <;> decide!
  · rw [extra_commands_G]
    by_cases hk : m ∈ HAS_CONSUMABLES <;> simp only [hk, if_true, if_false] <;>
      rcases hc with rfl | rfl | rfl | rfl | rfl | rfl <;> decide!
  · rw [extra_commands_L]
    by_cases hk : m ∈ HAS_CONSUMABLES <;> simp only [hk, if_true, if_false] <;>
      rcases hc with rfl | rfl | rfl | rfl | rfl | rfl <;> decide!
  · rw [extra_commands_X]
    by_cases hk : m ∈ HAS_CONSUMABLES <;> simp only [hk, if_true, if_false] <;>
      rcases hc with rfl | rfl | rfl | rfl | rfl | rfl <;> decide!

/-- A placeholder line stands on a line of its own: the descriptor holds it
between a line break with eight blanks and the next line break. -/
theorem occursIn_file_line_of_mem_extra (T : Tables) (s : Series) (m l : String)
    (h : l ∈ extra_commands T s m) :
    occursIn (concat ["\n        ", l, "\n"]) (file T s m) := by
  rw [file_eq_extra]
  obtain ⟨L, R, hLR⟩ := List.append_of_mem h
  rw [hLR]
  have hnext : ∃ rest : String,
      concat (R.map fun l => "\n        " ++ l) ++ "\n    \x7d\n" = "\n" ++ rest := by
    cases R with
    | nil => exact ⟨"    \x7d\n", rfl⟩
    | cons r R2 =>
      refine ⟨"        " ++ (r ++ (concat (R2.map fun l => "\n        " ++ l) ++ "\n    \x7d\n")), ?_⟩
      apply String.ext
      simp only [List.map_cons, concat_cons, String.data_append, List.append_assoc]
      rfl
  obtain ⟨rest, hrest⟩ := hnext
  refine ⟨(fileHead m (homeassistant_features T m) (robovac_features T s m)
      ++ fileCommands (JSON_stringify (T.ROBOVAC_SERIES_FAN_SPEEDS s))
      ++ concat (L.map fun l => "\n        " ++ l)).data, rest.data, ?_⟩
  have hd := congrArg String.data hrest
  simp only [String.data_append] at hd
  simp only [List.map_append, List.map_cons, data_concat, concat_cons, concat_nil,
    String.data_append, List.flatten_append, List.flatten_cons, List.append_assoc,
    String.append_empty] at hd ⊢
  rw [hd]

/-! ## Lemmas on the writes and the index -/

theorem mem_modelWrites (T : Tables) (s : Series) (m : String) (hm : m ∈ T.ROBOVAC_SERIES s) :
    (concat [m, ".py"], file T s m) ∈ modelWrites T := by
  unfold modelWrites entries Series.keys
  simp only [List.map_cons, List.map_nil, List.flatMap_cons, List.flatMap_nil, List.mem_append,
    List.mem_map]
  cases s
  · exact Or.inl ⟨m, hm, rfl⟩
  · exact Or.inr (Or.inl ⟨m, hm, rfl⟩)
  · exact Or.inr (Or.inr (Or.inl ⟨m, hm, rfl⟩))
  · exact Or.inr (Or.inr (Or.inr (Or.inl ⟨m, hm, rfl⟩)))

theorem mem_allModels (T : Tables) (m : String) :
    m ∈ allModels T ↔ ∃ s : Series, m ∈ T.ROBOVAC_SERIES s := by
  unfold allModels entries Series.keys
  simp only [List.map_cons, List.map_nil, List.flatMap_cons, List.flatMap_nil, List.mem_append,
    List.not_mem_nil, or_false]
  constructor
  · rintro (h | h | h | h)
    · exact ⟨Series.C, h⟩
    · exact ⟨Series.G, h⟩
    · exact ⟨Series.L, h⟩
    · exact ⟨Series.X, h⟩
  · rintro ⟨s, h⟩
    cases s
    · exact Or.inl h
    · exact Or.inr (Or.inl h)
    · exact Or.inr (Or.inr (Or.inl h))
    · exact Or.inr (Or.inr (Or.inr h))

/-- The lines of the index: the import lines, two empty lines, the opening of
`ROBOVAC_MODELS`, the entries, each but the last with a comma, and the closing
brace. -/
theorem lines_initFile :
    lines (initFile tables) =
      (allModels tables).map importLine
        ++ ["", "", "ROBOVAC_MODELS = \x7b"]
        ++ ((allModels tables).dropLast.map fun y => concat [modelEntry y, ","])
        ++ [modelEntry "T2320", "\x7d"] := by
  decide!

theorem occursIn_class_line (T : Tables) (s : Series) (m : String) :
    occursIn (concat ["\n", "class ", m, ":\n"]) (file T s m) := by
  refine ⟨(concat
      [ "from homeassistant.components.vacuum import VacuumEntityFeature\n",
        "from .base import RoboVacEntityFeature, RobovacCommand\n",
        "\n" ]).data, ?_, ?_⟩
  · exact (concat
      [ "    homeassistant_features = (\n",
        "        ", join "\n        | " (homeassistant_features T m), "\n",
        "    )\n",
        "    robovac_features = ", join " | " (robovac_features T s m), "\n",
        fileCommands (JSON_stringify (T.ROBOVAC_SERIES_FAN_SPEEDS s)),
        fileExtra (extra_commands T s m),
        "\n",
        "    \x7d\n" ]).data
  · simp only [file, fileHead, concat_cons, concat_nil, String.data_append, List.append_assoc,
      String.append_empty]

theorem importLine_injective {x y : String} (h : importLine x = importLine y) : x = y := by
  have h2 := congrArg String.data h
  simp only [importLine, concat_cons, concat_nil, String.data_append, String.append_empty] at h2
  have h3 := List.append_cancel_left h2
  have hl := congrArg List.length h3
  simp only [List.length_append] at hl
  exact String.ext (List.append_inj h3 (by omega)).1

theorem modelEntry_injective {x y : String} (h : modelEntry x = modelEntry y) : x = y := by
  have h2 := congrArg String.data h
  simp only [modelEntry, concat_cons, concat_nil, String.data_append, String.append_empty] at h2
  have h3 := List.append_cancel_left h2
  have hl := congrArg List.length h3
  simp only [List.length_append] at hl
  exact String.ext (List.append_inj h3 (by omega)).1

theorem length_modelEntry (x : String) : (modelEntry x).data.length = 2 * x.data.length + 8 := by
  simp only [modelEntry, concat_cons, concat_nil, String.data_append, String.append_empty,
    List.length_append]
  have h1 : "    \"".data.length = 5 := rfl
  have h2 : "\": ".data.length = 3 := rfl
  rw [h1, h2]
  omega

theorem modelEntry_ne_comma (x y : String) : modelEntry x ≠ concat [modelEntry y, ","] := by
  intro h
  have hl := congrArg (fun s => s.data.length) h
  simp only [concat_cons, concat_nil, String.data_append, String.append_empty,
    List.length_append, length_modelEntry] at hl
  have h1 : ",".data.length = 1 := rfl
  rw [h1] at hl
  omega

theorem modelEntry_comma_injective {x y : String}
    (h : concat [modelEntry x, ","] = concat [modelEntry y, ","]) : x = y := by
  have h2 := congrArg String.data h
  simp only [concat_cons, concat_nil, String.data_append, String.append_empty] at h2
  exact modelEntry_injective (String.ext (List.append_cancel_right h2))

theorem ne_of_head_ne {a b : String} (h : a.data.head? ≠ b.data.head?) : a ≠ b :=
  fun e => h (congrArg (fun s => s.data.head?) e)

theorem head_importLine (x : String) : (importLine x).data.head? = some 'f' := rfl

theorem head_modelEntry (x : String) : (modelEntry x).data.head? = some ' ' := rfl

theorem head_modelEntry_comma (x : String) :
    (concat [modelEntry x, ","]).data.head? = some ' ' := rfl

/-- A line of the index that imports `x` or is the entry of `x` comes from an
element of `allModels`. -/
theorem mem_allModels_of_index_line (x : String)
    (h : importLine x ∈ lines (initFile tables) ∨ modelEntry x ∈ lines (initFile tables)
      ∨ concat [modelEntry x, ","] ∈ lines (initFile tables)) :
    x ∈ allModels tables := by
  rw [lines_initFile] at h
  have hlast : "T2320" ∈ allModels tables := by decide
  simp only [List.mem_append, List.mem_map, List.mem_cons, List.mem_singleton,
    List.not_mem_nil, or_false] at h
  rcases h with h | h | h
  · rcases h with ((⟨y, hy, e⟩ | e | e | e) | ⟨y, hy, e⟩) | e | e
    · exact importLine_injective e ▸ hy
    · exact absurd e (ne_of_head_ne (by simp only [head_importLine, head_modelEntry, head_modelEntry_comma]; decide))
    · exact absurd e (ne_of_head_ne (by simp only [head_importLine, head_modelEntry, head_modelEntry_comma]; decide))
    · exact absurd e (ne_of_head_ne (by simp only [head_importLine, head_modelEntry, head_modelEntry_comma]; decide))
    · exact absurd e (ne_of_head_ne (by simp only [head_importLine, head_modelEntry, head_modelEntry_comma]; decide))
    · exact absurd e (ne_of_head_ne (by simp only [head_importLine, head_modelEntry, head_modelEntry_comma]; decide))
    · exact absurd e (ne_of_head_ne (by simp only [head_importLine, head_modelEntry, head_modelEntry_comma]; decide))
  · rcases h with ((⟨y, hy, e⟩ | e | e | e) | ⟨y, hy, e⟩) | e | e
    · exact absurd e (ne_of_head_ne (by simp only [head_importLine, head_modelEntry, head_modelEntry_comma]; decide))
    · exact absurd e (ne_of_head_ne (by simp only [head_importLine, head_modelEntry, head_modelEntry_comma]; decide))
    · exact absurd e (ne_of_head_ne (by simp only [head_importLine, head_modelEntry, head_modelEntry_comma]; decide))
    · exact absurd e (ne_of_head_ne (by simp only [head_importLine, head_modelEntry, head_modelEntry_comma]; decide))
    · exact absurd e.symm (modelEntry_ne_comma x y)
    · exact modelEntry_injective e ▸ hlast
    · exact absurd e (ne_of_head_ne (by simp only [head_importLine, head_modelEntry, head_modelEntry_comma]; decide))
  · rcases h with ((⟨y, hy, e⟩ | e | e | e) | ⟨y, hy, e⟩) | e | e
    · exact absurd e (ne_of_head_ne (by simp only [head_importLine, head_modelEntry, head_modelEntry_comma]; decide))
    · exact absurd e (ne_of_head_ne (by simp only [head_importLine, head_modelEntry, head_modelEntry_comma]; decide))
    · exact absurd e (ne_of_head_ne (by simp only [head_importLine, head_modelEntry, head_modelEntry_comma]; decide))
    · exact absurd e (ne_of_head_ne (by simp only [head_importLine, head_modelEntry, head_modelEntry_comma]; decide))
    · exact modelEntry_comma_injective e ▸ List.mem_of_mem_dropLast hy
    · exact absurd e (modelEntry_ne_comma "T2320" x).symm
    · exact absurd e (ne_of_head_ne (by simp only [head_importLine, head_modelEntry, head_modelEntry_comma]; decide))

theorem nodup_allModels : (allModels tables).Nodup := by
  decide!

theorem count_allModels (s : Series) (m : String) (hm : m ∈ ROBOVAC_SERIES s) :
    (allModels tables).count m = 1 :=
  List.count_eq_one_of_mem nodup_allModels ((mem_allModels tables m).mpr ⟨s, hm⟩)

theorem pyName_injective : Function.Injective fun m : String => concat [m, ".py"] := by
  intro x y h
  have h2 := congrArg String.data h
  simp only [concat_cons, concat_nil, String.data_append, String.append_empty] at h2
  exact String.ext (List.append_cancel_right h2)

theorem names_generate (T : Tables) :
    (generate T).map Prod.fst
      = (allModels T).map (fun m : String => concat [m, ".py"]) ++ ["__init__.py"] := by
  simp [generate, modelWrites, allModels, entries, Series.keys, initWrite, Function.comp_def]

theorem count_name (s : Series) (m : String) (hm : m ∈ ROBOVAC_SERIES s) :
    ((generate tables).map Prod.fst).count (concat [m, ".py"]) = 1 := by
  have hne : concat [m, ".py"] ≠ "__init__.py" := by
    intro h
    have h2 : m = "__init__" := pyName_injective h
    subst h2
    revert hm
    cases s <;> decide
  rw [names_generate, List.count_append,
    List.count_map_of_injective _ _ pyName_injective, count_allModels s m hm,
    List.count_eq_zero_of_not_mem]
  simpa using hne

theorem count_importLine (s : Series) (m : String) (hm : m ∈ ROBOVAC_SERIES s) :
    (lines (initFile tables)).count (importLine m) = 1 := by
  rw [lines_initFile]
  simp only [List.count_append]
  rw [List.count_map_of_injective _ _ (fun _ _ h => importLine_injective h),
    count_allModels s m hm, List.count_eq_zero_of_not_mem, List.count_eq_zero_of_not_mem,
    List.count_eq_zero_of_not_mem]
  · intro h
    simp only [List.mem_cons, List.mem_singleton, List.not_mem_nil, or_false] at h
    rcases h with e | e <;>
      exact absurd e (ne_of_head_ne (by simp only [head_importLine, head_modelEntry]; decide))
  · intro h
    obtain ⟨y, -, e⟩ := List.mem_map.mp h
    exact absurd e.symm
      (ne_of_head_ne (by simp only [head_importLine, head_modelEntry_comma]; decide))
  · intro h
    simp only [List.mem_cons, List.mem_singleton, List.not_mem_nil, or_false] at h
    rcases h with e | e | e <;>
      exact absurd e (ne_of_head_ne (by simp only [head_importLine]; decide))

theorem count_entry (s : Series) (m : String) (hm : m ∈ ROBOVAC_SERIES s) :
    ((lines (initFile tables)).filter fun l =>
        decide (l = modelEntry m ∨ l = concat [modelEntry m, ","])).length = 1 := by
  have hall : allModels tables = (allModels tables).dropLast ++ ["T2320"] := by decide
  have h1 := count_allModels s m hm
  rw [hall, List.count_append] at h1
  rw [lines_initFile, ← List.countP_eq_length_filter]
  simp only [List.countP_append]
  have e1 : List.countP (fun l => decide (l = modelEntry m ∨ l = concat [modelEntry m, ","]))
      ((allModels tables).map importLine) = 0 := by
    rw [List.countP_eq_zero]
    intro l hl
    obtain ⟨y, -, rfl⟩ := List.mem_map.mp hl
    simp only [decide_eq_true_eq, not_or]
    exact ⟨ne_of_head_ne (by simp only [head_importLine, head_modelEntry]; decide),
      ne_of_head_ne (by simp only [head_importLine, head_modelEntry_comma]; decide)⟩
  have e2 : List.countP (fun l => decide (l = modelEntry m ∨ l = concat [modelEntry m, ","]))
      ["", "", "ROBOVAC_MODELS = \x7b"] = 0 := by
    rw [List.countP_eq_zero]
    intro l hl
    simp only [List.mem_cons, List.mem_singleton, List.not_mem_nil, or_false] at hl
    simp only [decide_eq_true_eq, not_or]
    rcases hl with rfl | rfl | rfl <;>
      exact ⟨(ne_of_head_ne (by simp only [head_modelEntry]; decide)).symm,
        (ne_of_head_ne (by simp only [head_modelEntry_comma]; decide)).symm⟩
  have e3 : List.countP (fun l => decide (l = modelEntry m ∨ l = concat [modelEntry m, ","]))
      ((allModels tables).dropLast.map fun y => concat [modelEntry y, ","])
        = (allModels tables).dropLast.count m := by
    rw [List.countP_map, List.count]
    apply List.countP_congr
    intro y _
    simp only [Function.comp_apply, decide_eq_true_eq, beq_iff_eq]
    constructor
    · rintro (e | e)
      · exact absurd e.symm (modelEntry_ne_comma m y)
      · exact modelEntry_comma_injective e
    · rintro rfl
      exact Or.inr rfl
  have e4 : List.countP (fun l => decide (l = modelEntry m ∨ l = concat [modelEntry m, ","]))
      [modelEntry "T2320", "\x7d"] = ["T2320"].count m := by
    have hb : ¬ ("\x7d" = modelEntry m ∨ "\x7d" = concat [modelEntry m, ","]) := by
      simp only [not_or]
      exact ⟨(ne_of_head_ne (by simp only [head_modelEntry]; decide)).symm,
        (ne_of_head_ne (by simp only [head_modelEntry_comma]; decide)).symm⟩
    have hb2 : ¬ ("\x7d" = modelEntry m ∨ "\x7d" = modelEntry m ++ ",") := by
      simpa only [concat_cons, concat_nil, String.append_empty] using hb
    by_cases hm2 : m = "T2320"
    · subst hm2
      simp [List.countP_cons, hb2]
    · have ha : ¬ (modelEntry "T2320" = modelEntry m
          ∨ modelEntry "T2320" = concat [modelEntry m, ","]) := by
        simp only [not_or]
        exact ⟨fun e => hm2 (modelEntry_injective e).symm, modelEntry_ne_comma _ _⟩
      have ha2 : ¬ (modelEntry "T2320" = modelEntry m
          ∨ modelEntry "T2320" = modelEntry m ++ ",") := by
        simpa only [concat_cons, concat_nil, String.append_empty] using ha
      have hz : ["T2320"].count m = 0 :=
        List.count_eq_zero_of_not_mem (by simpa using hm2)
      simp [List.countP_cons, ha2, hb2, hz]
  rw [e1, e2, e3, e4]
  omega

/-! ## Capability sets and feature tags -/

/-- C1: a model of any series is in `HAS_MAP_FEATURE` exactly when its derived
`homeassistant_features` holds `VacuumEntityFeature.MAP` and its derived
`robovac_features` holds `RoboVacEntityFeature.MAP`; the two tags are present
together or absent together. -/
theorem map_feature_iff (s : Series) (m : String) :
    m ∈ ROBOVAC_SERIES s →
      (m ∈ HAS_MAP_FEATURE tables ↔
          "VacuumEntityFeature.MAP" ∈ homeassistant_features tables m
            ∧ "RoboVacEntityFeature.MAP" ∈ robovac_features tables s m)
        ∧ ("VacuumEntityFeature.MAP" ∈ homeassistant_features tables m ↔
            "RoboVacEntityFeature.MAP" ∈ robovac_features tables s m) := by
  intro _
  have h1 := mem_homeassistant_features_map tables m
  have h2 : "RoboVacEntityFeature.MAP" ∈ robovac_features tables s m
      ↔ m ∈ HAS_MAP_FEATURE tables := by
    rw [mem_robovac_features]
    constructor
    · rintro (h | ⟨-, h⟩ | ⟨h, -⟩)
      · exact absurd h (map_not_base s)
      · exact h
      · exact absurd h (by decide)
    · intro h
      exact Or.inr (Or.inl ⟨rfl, h⟩)
  rw [h1, h2]
  simp

/-- Instance of C1 at the map-capable model `T2181` of series `L`. -/
theorem map_feature_iff_T2181 :
    "T2181" ∈ ROBOVAC_SERIES Series.L
      ∧ ("T2181" ∈ HAS_MAP_FEATURE tables
        ∧ "VacuumEntityFeature.MAP" ∈ homeassistant_features tables "T2181"
        ∧ "RoboVacEntityFeature.MAP" ∈ robovac_features tables Series.L "T2181") :=
  ⟨by decide, by decide,
    ((map_feature_iff Series.L "T2181" (by decide)).1.mp (by decide)).1,
    ((map_feature_iff Series.L "T2181" (by decide)).1.mp (by decide)).2⟩

/-- Model `T2103` of series `C` is not map-capable and has the map tag in
neither feature list. -/
theorem map_feature_T2103 :
    "T2103" ∈ ROBOVAC_SERIES Series.C
      ∧ "T2103" ∉ HAS_MAP_FEATURE tables
      ∧ "VacuumEntityFeature.MAP" ∉ homeassistant_features tables "T2103"
      ∧ "RoboVacEntityFeature.MAP" ∉ robovac_features tables Series.C "T2103" := by
  decide

/-- C2: a model of any series is in `HAS_CONSUMABLES` exactly when its derived
`robovac_features` holds `RoboVacEntityFeature.CONSUMABLES`; no series base
list holds that tag. -/
theorem consumables_feature_iff (s : Series) (m : String) :
    m ∈ ROBOVAC_SERIES s →
      (m ∈ HAS_CONSUMABLES ↔
          "RoboVacEntityFeature.CONSUMABLES" ∈ robovac_features tables s m)
        ∧ ∀ s2 : Series, "RoboVacEntityFeature.CONSUMABLES" ∉ ROBOVAC_SERIES_FEATURES s2 := by
  intro _
  refine ⟨?_, consumables_not_base⟩
  rw [mem_robovac_features]
  constructor
  · intro h
    exact Or.inr (Or.inr ⟨rfl, h⟩)
  · rintro (h | ⟨h, -⟩ | ⟨-, h⟩)
    · exact absurd h (consumables_not_base s)
    · exact absurd h (by decide)
    · exact h

/-- Instance of C2 at the consumables-capable model `T1250` of series `G`. -/
theorem consumables_feature_iff_T1250 :
    "T1250" ∈ ROBOVAC_SERIES Series.G
      ∧ "T1250" ∈ HAS_CONSUMABLES
      ∧ "RoboVacEntityFeature.CONSUMABLES" ∈ robovac_features tables Series.G "T1250" :=
  ⟨by decide, by decide,
    (consumables_feature_iff Series.G "T1250" (by decide)).1.mp (by decide)⟩

/-- Model `T2103` of series `C` is not consumables-capable and has no
consumables tag. -/
theorem consumables_feature_T2103 :
    "T2103" ∈ ROBOVAC_SERIES Series.C
      ∧ "T2103" ∉ HAS_CONSUMABLES
      ∧ "RoboVacEntityFeature.CONSUMABLES" ∉ robovac_features tables Series.C "T2103" := by
  decide

/-! ## Placeholder entries -/

/-- C3: for a model `m` of any series and a name `c`, the placeholder line of
`c` is in `extra_commands` of `m` exactly when `c` is one of the six names of
`commands` and `RoboVacEntityFeature.c` is in the derived `robovac_features`
of `m` (so no line is produced for a name outside the six); a line of
`extra_commands` is rendered in the descriptor on a line of its own; and the
descriptor holds the placeholder line of one of the six names only if
`extra_commands` does. -/
theorem placeholder_iff_feature (s : Series) (m : String) (hm : m ∈ ROBOVAC_SERIES s)
    (c : String) :
    (placeholder c ∈ extra_commands tables s m ↔
        c ∈ commands ∧ concat ["RoboVacEntityFeature.", c] ∈ robovac_features tables s m)
      ∧ (placeholder c ∈ extra_commands tables s m →
          occursIn ("\n        " ++ placeholder c) (file tables s m))
      ∧ (c ∈ commands → occursIn (placeholder c) (file tables s m) →
          placeholder c ∈ extra_commands tables s m) :=
  ⟨placeholder_mem_extra_commands tables s m c,
    occursIn_file_of_mem_extra tables s m (placeholder c),
    fun hc h => placeholder_mem_of_occursIn s m c hm hc h⟩

/-- Instance of C3 at model `T1250` of series `G` and the name `CLEANING_TIME`. -/
theorem placeholder_iff_feature_T1250 :
    "T1250" ∈ ROBOVAC_SERIES Series.G
      ∧ (placeholder "CLEANING_TIME" ∈ extra_commands tables Series.G "T1250" ↔
          "CLEANING_TIME" ∈ commands
            ∧ concat ["RoboVacEntityFeature.", "CLEANING_TIME"]
                ∈ robovac_features tables Series.G "T1250")
      ∧ (placeholder "CLEANING_TIME" ∈ extra_commands tables Series.G "T1250" →
          occursIn ("\n        " ++ placeholder "CLEANING_TIME") (file tables Series.G "T1250"))
      ∧ ("CLEANING_TIME" ∈ commands →
          occursIn (placeholder "CLEANING_TIME") (file tables Series.G "T1250") →
          placeholder "CLEANING_TIME" ∈ extra_commands tables Series.G "T1250") :=
  ⟨by decide, placeholder_iff_feature Series.G "T1250" (by decide) "CLEANING_TIME"⟩

/-! ## The fixed command entries -/

/-- C4: the descriptor of every model of every series holds, one after the
other and in this order, the nine fixed command entries with the codes
2, 3, 5, 15, 101, 102, 103, 104 and 106; apart from the fan-speed value list the
text of the entries is the same for every model and series. -/
theorem core_commands_fixed (s : Series) (m : String) :
    m ∈ ROBOVAC_SERIES s →
      ∃ pre post : String,
        file tables s m =
          concat
            [ pre,
              "    commands = \x7b\n",
              "        RobovacCommand.PAUSE: 2,\n",
              "        RobovacCommand.DIRECTION: \x7b\n",
              "            \"code\": 3,\n",
              "            \"values\": [\"forward\", \"back\", \"left\", \"right\"],\n",
              "        \x7d,\n",
              "        RobovacCommand.MODE: \x7b\n",
              "            \"code\": 5,\n",
              "            \"values\": [\"auto\", \"SmallRoom\", \"Spot\", \"Edge\", \"Nosweep\"],\n",
              "        \x7d,\n",
              "        RobovacCommand.STATUS: 15,\n",
              "        RobovacCommand.RETURN_HOME: 101,\n",
              "        RobovacCommand.FAN_SPEED: \x7b\n",
              "            \"code\": 102,\n",
              "            \"values\": ", JSON_stringify (ROBOVAC_SERIES_FAN_SPEEDS s), ",\n",
              "        \x7d,\n",
              "        RobovacCommand.LOCATE: 103,\n",
              "        RobovacCommand.BATTERY: 104,\n",
              "        RobovacCommand.ERROR: 106,",
              post ] := by
  intro _
  refine ⟨fileHead m (homeassistant_features tables m) (robovac_features tables s m),
    concat [fileExtra (extra_commands tables s m), "\n", "    \x7d\n"], ?_⟩
  simp only [file, fileCommands, concat_cons, concat_nil, String.append_empty,
    String.append_assoc]
  rfl

/-- Instance of C4 at model `T2103` of series `C`. -/
theorem core_commands_fixed_T2103 :
    "T2103" ∈ ROBOVAC_SERIES Series.C
      ∧ ∃ pre post : String,
        file tables Series.C "T2103" =
          concat
            [ pre,
              "    commands = \x7b\n",
              "        RobovacCommand.PAUSE: 2,\n",
              "        RobovacCommand.DIRECTION: \x7b\n",
              "            \"code\": 3,\n",
              "            \"values\": [\"forward\", \"back\", \"left\", \"right\"],\n",
              "        \x7d,\n",
              "        RobovacCommand.MODE: \x7b\n",
              "            \"code\": 5,\n",
              "            \"values\": [\"auto\", \"SmallRoom\", \"Spot\", \"Edge\", \"Nosweep\"],\n",
              "        \x7d,\n",
              "        RobovacCommand.STATUS: 15,\n",
              "        RobovacCommand.RETURN_HOME: 101,\n",
              "        RobovacCommand.FAN_SPEED: \x7b\n",
              "            \"code\": 102,\n",
              "            \"values\": ", JSON_stringify (ROBOVAC_SERIES_FAN_SPEEDS Series.C), ",\n",
              "        \x7d,\n",
              "        RobovacCommand.LOCATE: 103,\n",
              "        RobovacCommand.BATTERY: 104,\n",
              "        RobovacCommand.ERROR: 106,",
              post ] :=
  ⟨by decide, core_commands_fixed Series.C "T2103" (by decide)⟩

/-- C5: the fan-speed entry of the descriptor of a model of series `s` carries
the list `ROBOVAC_SERIES_FAN_SPEEDS s`: its labels, unchanged and in the same
order, each between double quotes and separated by commas; the list has four
labels; for series `C` and `L` the rendered lists are the ones shown. -/
theorem fan_speed_values (s : Series) (m : String) :
    m ∈ ROBOVAC_SERIES s →
      (∃ pre post : String,
          file tables s m =
            concat
              [ pre,
                "        RobovacCommand.FAN_SPEED: \x7b\n",
                "            \"code\": 102,\n",
                "            \"values\": ", JSON_stringify (ROBOVAC_SERIES_FAN_SPEEDS s), ",\n",
                "        \x7d,\n",
                post ])
        ∧ JSON_stringify (ROBOVAC_SERIES_FAN_SPEEDS s) =
            concat
              [ "[",
                join "," ((ROBOVAC_SERIES_FAN_SPEEDS s).map fun label =>
                  concat ["\"", label, "\""]),
                "]" ]
        ∧ (∀ s2 : Series, (ROBOVAC_SERIES_FAN_SPEEDS s2).length = 4)
        ∧ (s = Series.C →
            JSON_stringify (ROBOVAC_SERIES_FAN_SPEEDS s)
              = "[\"No_Suction\",\"Standard\",\"Boost_IQ\",\"Max\"]")
        ∧ (s = Series.L →
            JSON_stringify (ROBOVAC_SERIES_FAN_SPEEDS s)
              = "[\"Quiet\",\"Standard\",\"Turbo\",\"Max\"]") := by
  intro _
  refine ⟨⟨concat
      [ fileHead m (homeassistant_features tables m) (robovac_features tables s m),
        "    commands = \x7b\n",
        "        RobovacCommand.PAUSE: 2,\n",
        "        RobovacCommand.DIRECTION: \x7b\n",
        "            \"code\": 3,\n",
        "            \"values\": [\"forward\", \"back\", \"left\", \"right\"],\n",
        "        \x7d,\n",
        "        RobovacCommand.MODE: \x7b\n",
        "            \"code\": 5,\n",
        "            \"values\": [\"auto\", \"SmallRoom\", \"Spot\", \"Edge\", \"Nosweep\"],\n",
        "        \x7d,\n",
        "        RobovacCommand.STATUS: 15,\n",
        "        RobovacCommand.RETURN_HOME: 101,\n" ],
    concat
      [ "        RobovacCommand.LOCATE: 103,\n",
        "        RobovacCommand.BATTERY: 104,\n",
        "        RobovacCommand.ERROR: 106,",
        fileExtra (extra_commands tables s m), "\n", "    \x7d\n" ], ?_⟩, ?_, ?_, ?_, ?_⟩
  · simp only [file, fileCommands, concat_cons, concat_nil, String.append_empty,
      String.append_assoc]
    rfl
  · cases s <;> decide
  · intro s2
    cases s2 <;> rfl
  · rintro rfl
    decide
  · rintro rfl
    decide

/-- Instance of C5 at model `T2181` of series `L`. -/
theorem fan_speed_values_T2181 :
    "T2181" ∈ ROBOVAC_SERIES Series.L
      ∧ (∃ pre post : String,
          file tables Series.L "T2181" =
            concat
              [ pre,
                "        RobovacCommand.FAN_SPEED: \x7b\n",
                "            \"code\": 102,\n",
                "            \"values\": ", "[\"Quiet\",\"Standard\",\"Turbo\",\"Max\"]", ",\n",
                "        \x7d,\n",
                post ]) := by
  refine ⟨by decide, ?_⟩
  have h := fan_speed_values Series.L "T2181" (by decide)
  rw [← h.2.2.2.2 rfl]
  exact h.1

/-! ## Series membership -/

/-- C7: an identifier listed in `ROBOVAC_SERIES` is listed under one key only:
two lists that hold it belong to the same key, and the four lists are
pairwise disjoint. -/
theorem series_unique (s : Series) (m : String) (hm : m ∈ ROBOVAC_SERIES s) :
    (∀ s2 : Series, m ∈ ROBOVAC_SERIES s2 → s2 = s)
      ∧ (∀ s1 s2 : Series, s1 ≠ s2 → ∀ x ∈ ROBOVAC_SERIES s1, x ∉ ROBOVAC_SERIES s2) := by
  constructor
  · intro s2 h2
    revert m
    cases s <;> cases s2 <;> decide!
  · intro s1 s2 hne
    cases s1 <;> cases s2 <;> first | exact absurd rfl hne | decide!

/-- Instance of C7 at model `T2253` of series `G`. -/
theorem series_unique_T2253 :
    "T2253" ∈ ROBOVAC_SERIES Series.G
      ∧ (∀ s2 : Series, "T2253" ∈ ROBOVAC_SERIES s2 → s2 = Series.G)
      ∧ (∀ s1 s2 : Series, s1 ≠ s2 → ∀ x ∈ ROBOVAC_SERIES s1, x ∉ ROBOVAC_SERIES s2) :=
  ⟨by decide, series_unique Series.G "T2253" (by decide)⟩

/-! ## One descriptor and one index entry per model -/

/-- C6: for a model `m` listed in a series, one run writes the file `m.py`
exactly once, with the descriptor of `m`, which defines `class m`; the index
has exactly one line `from .m import m` and exactly one entry line for `m`,
with key `"m"` and value `m`; the lines of the index are the import lines and
the entry lines of `allModels`, an import line or an entry line of the index
belongs to an identifier listed in a series, and `allModels` has no duplicate. -/
theorem one_descriptor_per_model (s : Series) (m : String) (hm : m ∈ ROBOVAC_SERIES s) :
    ((generate tables).map Prod.fst).count (concat [m, ".py"]) = 1
      ∧ (concat [m, ".py"], file tables s m) ∈ generate tables
      ∧ occursIn (concat ["\n", "class ", m, ":\n"]) (file tables s m)
      ∧ (lines (initFile tables)).count (importLine m) = 1
      ∧ ((lines (initFile tables)).filter fun l =>
            decide (l = modelEntry m ∨ l = concat [modelEntry m, ","])).length = 1
      ∧ lines (initFile tables) =
          (allModels tables).map importLine
            ++ ["", "", "ROBOVAC_MODELS = \x7b"]
            ++ ((allModels tables).dropLast.map fun y => concat [modelEntry y, ","])
            ++ [modelEntry "T2320", "\x7d"]
      ∧ (∀ x : String,
          importLine x ∈ lines (initFile tables) ∨ modelEntry x ∈ lines (initFile tables)
              ∨ concat [modelEntry x, ","] ∈ lines (initFile tables) →
            ∃ s2 : Series, x ∈ ROBOVAC_SERIES s2)
      ∧ (allModels tables).Nodup := by
  exact ⟨count_name s m hm, List.mem_append_left _ (mem_modelWrites tables s m hm),
    occursIn_class_line tables s m, count_importLine s m hm, count_entry s m hm, lines_initFile,
    fun x hx => (mem_allModels tables x).mp (mem_allModels_of_index_line x hx),
    nodup_allModels⟩

/-- Instance of C6 at model `T2181` of series `L`. -/
theorem one_descriptor_per_model_T2181 :
    "T2181" ∈ ROBOVAC_SERIES Series.L
      ∧ ((generate tables).map Prod.fst).count "T2181.py" = 1
      ∧ ("T2181.py", file tables Series.L "T2181") ∈ generate tables
      ∧ occursIn (concat ["\n", "class ", "T2181", ":\n"]) (file tables Series.L "T2181")
      ∧ (lines (initFile tables)).count (importLine "T2181") = 1
      ∧ ((lines (initFile tables)).filter fun l =>
            decide (l = modelEntry "T2181" ∨ l = concat [modelEntry "T2181", ","])).length = 1 :=
  have h := one_descriptor_per_model Series.L "T2181" (by decide)
  ⟨by decide, h.1, h.2.1, h.2.2.1, h.2.2.2.1, h.2.2.2.2.1⟩

/-! ## Placeholder entries of each series -/

/-- C8: the placeholder list of a model of series `G` is the marker and the
lines of `CLEANING_AREA`, `CLEANING_TIME`, `AUTO_RETURN` and `DO_NOT_DISTURB`,
without `BOOST_IQ`; that of a model of series `L` or `X` is the marker and the
lines of these four names and of `BOOST_IQ`; in both cases the line of
`CONSUMABLES` follows exactly for the models of `HAS_CONSUMABLES`. -/
theorem series_placeholders (s : Series) (m : String) :
    m ∈ ROBOVAC_SERIES s →
      (s = Series.G →
          extra_commands tables s m =
            marker :: placeholder "CLEANING_AREA" :: placeholder "CLEANING_TIME"
              :: placeholder "AUTO_RETURN" :: placeholder "DO_NOT_DISTURB"
              :: (if m ∈ HAS_CONSUMABLES then [placeholder "CONSUMABLES"] else []))
        ∧ (s = Series.L ∨ s = Series.X →
          extra_commands tables s m =
            marker :: placeholder "CLEANING_AREA" :: placeholder "CLEANING_TIME"
              :: placeholder "AUTO_RETURN" :: placeholder "DO_NOT_DISTURB"
              :: placeholder "BOOST_IQ"
              :: (if m ∈ HAS_CONSUMABLES then [placeholder "CONSUMABLES"] else [])) := by
  intro _
  constructor
  · rintro rfl
    exact extra_commands_G m
  · rintro (rfl | rfl)
    · exact extra_commands_L m
    · exact extra_commands_X m

/-- Instance of C8 at model `T2250` of series `G`, which is not in
`HAS_CONSUMABLES`. -/
theorem series_placeholders_T2250 :
    "T2250" ∈ ROBOVAC_SERIES Series.G
      ∧ extra_commands tables Series.G "T2250" =
          [ marker, placeholder "CLEANING_AREA", placeholder "CLEANING_TIME",
            placeholder "AUTO_RETURN", placeholder "DO_NOT_DISTURB" ] :=
  ⟨by decide, ((series_placeholders Series.G "T2250" (by decide)).1 rfl).trans (by decide)⟩

/-- C9: a model of series `C` has no placeholder: `extra_commands` is empty,
the descriptor holds neither the marker nor the placeholder line of any of the
six names, and it ends right after the `ERROR` entry; no model of series `C`
is in `HAS_CONSUMABLES` and the base list of `C` has none of the six tags. -/
theorem series_C_no_placeholder (m : String) (hm : m ∈ ROBOVAC_SERIES Series.C) :
    extra_commands tables Series.C m = []
      ∧ ¬ occursIn marker (file tables Series.C m)
      ∧ (∀ c ∈ commands, ¬ occursIn (placeholder c) (file tables Series.C m))
      ∧ (∃ pre : String,
          file tables Series.C m =
            concat [pre, "        RobovacCommand.ERROR: 106,", "\n", "    \x7d\n"])
      ∧ m ∉ HAS_CONSUMABLES
      ∧ (∀ c ∈ commands,
          concat ["RoboVacEntityFeature.", c] ∉ ROBOVAC_SERIES_FEATURES Series.C) := by
  have hk : m ∉ HAS_CONSUMABLES := by
    revert m
    decide
  have he : extra_commands tables Series.C m = [] := by
    rw [extra_commands_C, if_neg hk]
  refine ⟨he, ?_, ?_, ?_, hk, by decide⟩
  · intro h
    rw [file_eq_extra, he] at h
    have h2 := occursIn_right_of_head_not_mem '#' _ rfl (hash_not_mem_pre Series.C m hm) h
    revert h2
    decide
  · intro c hc h
    have h2 := placeholder_mem_of_occursIn Series.C m c hm hc h
    rw [he] at h2
    exact absurd h2 (List.not_mem_nil _)
  · refine ⟨concat
      [ fileHead m (homeassistant_features tables m) (robovac_features tables Series.C m),
        "    commands = \x7b\n",
        "        RobovacCommand.PAUSE: 2,\n",
        "        RobovacCommand.DIRECTION: \x7b\n",
        "            \"code\": 3,\n",
        "            \"values\": [\"forward\", \"back\", \"left\", \"right\"],\n",
        "        \x7d,\n",
        "        RobovacCommand.MODE: \x7b\n",
        "            \"code\": 5,\n",
        "            \"values\": [\"auto\", \"SmallRoom\", \"Spot\", \"Edge\", \"Nosweep\"],\n",
        "        \x7d,\n",
        "        RobovacCommand.STATUS: 15,\n",
        "        RobovacCommand.RETURN_HOME: 101,\n",
        "        RobovacCommand.FAN_SPEED: \x7b\n",
        "            \"code\": 102,\n",
        "            \"values\": ", JSON_stringify (ROBOVAC_SERIES_FAN_SPEEDS Series.C), ",\n",
        "        \x7d,\n",
        "        RobovacCommand.LOCATE: 103,\n",
        "        RobovacCommand.BATTERY: 104,\n" ], ?_⟩
    simp only [file, fileCommands, fileExtra, he, concat_cons, concat_nil, String.append_empty,
      String.append_assoc, List.length_nil, gt_iff_lt, lt_self_iff_false, if_false,
      String.empty_append]
    rfl

/-- Instance of C9 at model `T2103`. -/
theorem series_C_no_placeholder_T2103 :
    "T2103" ∈ ROBOVAC_SERIES Series.C
      ∧ extra_commands tables Series.C "T2103" = []
      ∧ ¬ occursIn marker (file tables Series.C "T2103")
      ∧ (∀ c ∈ commands, ¬ occursIn (placeholder c) (file tables Series.C "T2103")) :=
  have h := series_C_no_placeholder "T2103" (by decide)
  ⟨by decide, h.1, h.2.1, h.2.2.1⟩

/-! ## Shape of a placeholder line -/

/-- C10, as stated, fails: the placeholder line emitted for `CLEANING_AREA` in
the descriptor of model `T1250` is `# RobovacCommand.CLEANING_AREA: 0,`, whose
text after the command name holds the digit `0`. -/
theorem placeholder_number_T1250 :
    "T1250" ∈ ROBOVAC_SERIES Series.G
      ∧ placeholder "CLEANING_AREA" ∈ extra_commands tables Series.G "T1250"
      ∧ occursIn (concat ["\n        ", placeholder "CLEANING_AREA", "\n"])
          (file tables Series.G "T1250")
      ∧ placeholder "CLEANING_AREA" = concat ["# RobovacCommand.", "CLEANING_AREA", ": 0,"]
      ∧ ∃ ch ∈ ": 0,".data, ch.isDigit = true :=
  ⟨by decide, by decide,
    occursIn_file_line_of_mem_extra tables Series.G "T1250" _ (by decide), rfl, by decide⟩

/-- C10, amended: a placeholder line emitted for a model is the line of one of
the six names; it is the text `# RobovacCommand.c: 0,`, which starts with the
comment character, has no line break and carries the number `0` after the
name; the descriptor holds it on a line of its own, after eight blanks. -/
theorem placeholder_commented (s : Series) (m c : String) :
    m ∈ ROBOVAC_SERIES s →
      placeholder c ∈ extra_commands tables s m →
        c ∈ commands
          ∧ placeholder c = concat ["# RobovacCommand.", c, ": 0,"]
          ∧ (placeholder c).data.head? = some '#'
          ∧ '\n' ∉ (placeholder c).data
          ∧ occursIn (concat ["\n        ", placeholder c, "\n"]) (file tables s m) := by
  intro _ hc
  have hmem : c ∈ commands := ((placeholder_mem_extra_commands tables s m c).mp hc).1
  refine ⟨hmem, rfl, rfl, ?_, occursIn_file_line_of_mem_extra tables s m _ hc⟩
  clear hc
  revert c
  decide

/-- Instance of the amended C10 at model `T2320` of series `X` and the name
`CONSUMABLES`. -/
theorem placeholder_commented_T2320 :
    "T2320" ∈ ROBOVAC_SERIES Series.X
      ∧ placeholder "CONSUMABLES" ∈ extra_commands tables Series.X "T2320"
      ∧ "CONSUMABLES" ∈ commands
      ∧ placeholder "CONSUMABLES" = concat ["# RobovacCommand.", "CONSUMABLES", ": 0,"]
      ∧ (placeholder "CONSUMABLES").data.head? = some '#'
      ∧ '\n' ∉ (placeholder "CONSUMABLES").data
      ∧ occursIn (concat ["\n        ", placeholder "CONSUMABLES", "\n"])
          (file tables Series.X "T2320") :=
  ⟨by decide, by decide, placeholder_commented Series.X "T2320" "CONSUMABLES" (by decide) (by decide)⟩

/-! ## Lemmas on the order of the derived lists -/

theorem robovac_features_eq (T : Tables) (s : Series) (m : String) :
    robovac_features T s m =
      T.ROBOVAC_SERIES_FEATURES s
        ++ (if m ∈ HAS_MAP_FEATURE T then ["RoboVacEntityFeature.MAP"] else [])
        ++ (if m ∈ T.HAS_CONSUMABLES then ["RoboVacEntityFeature.CONSUMABLES"] else []) := by
  unfold robovac_features
  by_cases h1 : m ∈ HAS_MAP_FEATURE T <;> by_cases h2 : m ∈ T.HAS_CONSUMABLES <;>
    simp [contains_iff, h1, h2]

/-! ## Lemmas on the heap -/

theorem Heap.read_alloc_new (h : Heap) (xs : List String) :
    (h.alloc xs).1.read (h.alloc xs).2 = xs := by
  simp [Heap.alloc, Heap.read]

theorem Heap.read_alloc_old (h : Heap) (xs : List String) (a : Nat) (ha : a < h.cells.length) :
    (h.alloc xs).1.read a = h.read a := by
  simp [Heap.alloc, Heap.read, List.getElem?_append_left ha]

theorem Heap.length_alloc (h : Heap) (xs : List String) :
    (h.alloc xs).1.cells.length = h.cells.length + 1 := by
  simp [Heap.alloc]

theorem Heap.read_push_same (h : Heap) (a : Nat) (x : String) (ha : a < h.cells.length) :
    (h.push a x).read a = h.read a ++ [x] := by
  simp [Heap.push, Heap.read, ha]

theorem Heap.read_push_other (h : Heap) (a b : Nat) (x : String) (hab : b ≠ a) :
    (h.push a x).read b = h.read b := by
  simp [Heap.push, Heap.read, List.getElem?_set_ne hab.symm]

theorem Heap.length_push (h : Heap) (a : Nat) (x : String) :
    (h.push a x).cells.length = h.cells.length := by
  simp [Heap.push]

/-- One run of lines 108 and 122-129 leaves every array object that was there
before as it was, and the new array object holds the list that
`robovac_features` computes from the list under the key of the series. -/
theorem deriveFeatures_spec (T : Tables) (base : Series → Nat) (h : Heap) (s : Series)
    (m : String) (hs : h.read (base s) = T.ROBOVAC_SERIES_FEATURES s) :
    (deriveFeatures T base h s m).1.read (deriveFeatures T base h s m).2
        = robovac_features T s m
      ∧ (∀ a, a < h.cells.length → (deriveFeatures T base h s m).1.read a = h.read a)
      ∧ h.cells.length ≤ (deriveFeatures T base h s m).1.cells.length := by
  unfold deriveFeatures robovac_features
  simp only [Heap.alloc]
  rw [← hs]
  by_cases h1 : (HAS_MAP_FEATURE T).contains m = true <;>
    by_cases h2 : T.HAS_CONSUMABLES.contains m = true <;>
    simp only [h1, h2, if_true, if_false] <;>
    refine ⟨?_, ?_, ?_⟩ <;>
    first
      | (intro a ha
         simp [Heap.read, Heap.push, List.getElem?_append_left ha, List.getElem?_set_ne,
           Nat.ne_of_gt ha])
      | simp [Heap.read, Heap.push]


theorem lt_length_of_read_ne_nil (h : Heap) (a : Nat) (hne : h.read a ≠ []) :
    a < h.cells.length := by
  by_contra hlt
  apply hne
  simp [Heap.read, List.getElem?_eq_none (Nat.le_of_not_lt hlt)]

theorem features_ne_nil (s : Series) : ROBOVAC_SERIES_FEATURES s ≠ [] := by
  cases s <;> decide

/-! ## Lemmas on the occurrences of the marker -/

theorem countOccAux_pos_iff (p s : List Char) : 0 < countOccAux p s ↔ p <:+: s := by
  induction s with
  | nil =>
    cases p <;> simp [countOccAux]
  | cons c s ih =>
    rw [countOccAux, List.infix_cons_iff, ← ih, ← List.isPrefixOf_iff_prefix]
    by_cases h : p.isPrefixOf (c :: s) = true <;> simp [h]

theorem occurrences_pos_iff (p s : String) : 0 < occurrences p s ↔ occursIn p s :=
  countOccAux_pos_iff p.data s.data

theorem countOccAux_append_of_head_not_mem (c : Char) (q a b : List Char) (ha : c ∉ a) :
    countOccAux (c :: q) (a ++ b) = countOccAux (c :: q) b := by
  induction a with
  | nil => rfl
  | cons x a ih =>
    have hx : x ≠ c := fun e => ha (e ▸ List.mem_cons_self _ _)
    have ha2 : c ∉ a := fun e => ha (List.mem_cons_of_mem _ e)
    rw [List.cons_append, countOccAux, ih ha2]
    have : (c :: q).isPrefixOf (x :: (a ++ b)) = false := by
      simp [List.isPrefixOf, Ne.symm hx]
    simp [this]

theorem tail_occurrences (s : Series) (m : String) :
    countOccAux marker.data
        (concat ((extra_commands tables s m).map fun l => "\n        " ++ l) ++ "\n    \x7d\n").data
      = if extra_commands tables s m = [] then 0 else 1 := by
  cases s
  · rw [extra_commands_C]
    by_cases hk : m ∈ HAS_CONSUMABLES <;> simp only [hk, if_true, if_false] <;> decide!
  · rw [extra_commands_G]
    by_cases hk : m ∈ HAS_CONSUMABLES <;> simp only [hk, if_true, if_false] <;> decide!
  · rw [extra_commands_L]
    by_cases hk : m ∈ HAS_CONSUMABLES <;> simp only [hk, if_true, if_false] <;> decide!
  · rw [extra_commands_X]
    by_cases hk : m ∈ HAS_CONSUMABLES <;> simp only [hk, if_true, if_false] <;> decide!

theorem occurrences_marker (s : Series) (m : String) (hm : m ∈ ROBOVAC_SERIES s) :
    occurrences marker (file tables s m) = if extra_commands tables s m = [] then 0 else 1 := by
  unfold occurrences
  rw [file_eq_extra, String.data_append]
  have hd : marker.data = '#' :: " These commands need codes adding".data := rfl
  rw [hd, countOccAux_append_of_head_not_mem _ _ _ _ (hash_not_mem_pre s m hm), ← hd]
  exact tail_occurrences s m


theorem extra_commands_ne_nil_iff (T : Tables) (s : Series) (m : String) :
    extra_commands T s m ≠ [] ↔ ∃ c, placeholder c ∈ extra_commands T s m := by
  constructor
  · intro h
    obtain ⟨l, hl⟩ := List.exists_mem_of_ne_nil _ h
    rcases (mem_extra_commands T s m l).mp hl with ⟨-, c, hc, hf⟩ | ⟨c, hc, hf, -⟩
    · exact ⟨c, (placeholder_mem_extra_commands T s m c).mpr ⟨hc, hf⟩⟩
    · exact ⟨c, (placeholder_mem_extra_commands T s m c).mpr ⟨hc, hf⟩⟩
  · rintro ⟨c, hc⟩
    exact List.ne_nil_of_mem hc

/-- A non-empty placeholder list is the marker, then the line of the first
name that passes the filter, then the other lines. -/
theorem extra_commands_shape (T : Tables) (s : Series) (m : String)
    (h : extra_commands T s m ≠ []) :
    ∃ (c : String) (rest : List String),
      extra_commands T s m = marker :: placeholder c :: rest
        ∧ marker ∉ rest := by
  revert h
  unfold extra_commands
  simp only []
  generalize (T.commands.filter fun command =>
      (robovac_features T s m).contains (concat ["RoboVacEntityFeature.", command])) = names
  cases names with
  | nil => simp
  | cons c names =>
    intro _
    refine ⟨c, names.map placeholder, by simp, ?_⟩
    intro hmem
    obtain ⟨d, -, hd⟩ := List.mem_map.mp hmem
    exact marker_ne_placeholder d hd.symm

theorem join_cons_eq (sep x : String) (xs : List String) :
    ∃ t : String, join sep (x :: xs) = x ++ t := by
  cases xs with
  | nil => exact ⟨"", by simp [join]⟩
  | cons y ys => exact ⟨sep ++ join sep (y :: ys), rfl⟩

/-- The text of a descriptor whose placeholder list starts with `x` and `y`. -/
theorem file_eq_of_extra_cons (T : Tables) (s : Series) (m x y : String) (rest : List String)
    (h : extra_commands T s m = x :: y :: rest) :
    ∃ pre post : String,
      file T s m =
        concat
          [ pre, "        RobovacCommand.ERROR: 106,", "\n        ", x, "\n        ", y, post ] := by
  obtain ⟨t, ht⟩ := join_cons_eq "\n        " y rest
  refine ⟨concat
      [ fileHead m (homeassistant_features T m) (robovac_features T s m),
        "    commands = \x7b\n",
        "        RobovacCommand.PAUSE: 2,\n",
        "        RobovacCommand.DIRECTION: \x7b\n",
        "            \"code\": 3,\n",
        "            \"values\": [\"forward\", \"back\", \"left\", \"right\"],\n",
        "        \x7d,\n",
        "        RobovacCommand.MODE: \x7b\n",
        "            \"code\": 5,\n",
        "            \"values\": [\"auto\", \"SmallRoom\", \"Spot\", \"Edge\", \"Nosweep\"],\n",
        "        \x7d,\n",
        "        RobovacCommand.STATUS: 15,\n",
        "        RobovacCommand.RETURN_HOME: 101,\n",
        "        RobovacCommand.FAN_SPEED: \x7b\n",
        "            \"code\": 102,\n",
        "            \"values\": ", JSON_stringify (T.ROBOVAC_SERIES_FAN_SPEEDS s), ",\n",
        "        \x7d,\n",
        "        RobovacCommand.LOCATE: 103,\n",
        "        RobovacCommand.BATTERY: 104,\n" ],
    concat [t, "\n", "    \x7d\n"], ?_⟩
  have hj : join "\n        " (x :: y :: rest) = x ++ ("\n        " ++ (y ++ t)) := by
    show x ++ ("\n        " ++ join "\n        " (y :: rest)) = _
    rw [ht]
  simp only [file, fileCommands, fileExtra, h, hj, concat_cons, concat_nil, String.append_empty,
    String.append_assoc, List.length_cons, gt_iff_lt, Nat.zero_lt_succ, if_true]

/-! ## Lemmas on the dependence on the model -/

theorem homeassistant_features_congr (T : Tables) (m1 m2 : String)
    (hmap : m1 ∈ HAS_MAP_FEATURE T ↔ m2 ∈ HAS_MAP_FEATURE T) :
    homeassistant_features T m1 = homeassistant_features T m2 := by
  unfold homeassistant_features
  simp only [contains_iff, hmap]

theorem robovac_features_congr (T : Tables) (s : Series) (m1 m2 : String)
    (hmap : m1 ∈ HAS_MAP_FEATURE T ↔ m2 ∈ HAS_MAP_FEATURE T)
    (hcons : m1 ∈ T.HAS_CONSUMABLES ↔ m2 ∈ T.HAS_CONSUMABLES) :
    robovac_features T s m1 = robovac_features T s m2 := by
  unfold robovac_features
  simp only [contains_iff, hmap, hcons]

theorem extra_commands_congr (T : Tables) (s : Series) (m1 m2 : String)
    (h : robovac_features T s m1 = robovac_features T s m2) :
    extra_commands T s m1 = extra_commands T s m2 := by
  unfold extra_commands
  rw [h]

/-! ## Lemmas on adding a model -/

@[simp] theorem addModel_HAS_CONSUMABLES (T : Tables) (s0 : Series) (k : Nat) (n : String) :
    (addModel T s0 k n).HAS_CONSUMABLES = T.HAS_CONSUMABLES := rfl

@[simp] theorem addModel_FEATURES (T : Tables) (s0 : Series) (k : Nat) (n : String) :
    (addModel T s0 k n).ROBOVAC_SERIES_FEATURES = T.ROBOVAC_SERIES_FEATURES := rfl

@[simp] theorem addModel_FAN_SPEEDS (T : Tables) (s0 : Series) (k : Nat) (n : String) :
    (addModel T s0 k n).ROBOVAC_SERIES_FAN_SPEEDS = T.ROBOVAC_SERIES_FAN_SPEEDS := rfl

@[simp] theorem addModel_commands (T : Tables) (s0 : Series) (k : Nat) (n : String) :
    (addModel T s0 k n).commands = T.commands := rfl

theorem addModel_series_same (T : Tables) (s0 : Series) (k : Nat) (n : String) :
    (addModel T s0 k n).ROBOVAC_SERIES s0
      = (T.ROBOVAC_SERIES s0).take k ++ n :: (T.ROBOVAC_SERIES s0).drop k := by
  simp [addModel]

theorem addModel_series_other (T : Tables) (s0 s : Series) (k : Nat) (n : String)
    (h : s ≠ s0) : (addModel T s0 k n).ROBOVAC_SERIES s = T.ROBOVAC_SERIES s := by
  simp [addModel, h]

theorem mem_addModel (T : Tables) (s0 s : Series) (k : Nat) (n x : String) :
    x ∈ (addModel T s0 k n).ROBOVAC_SERIES s ↔
      x ∈ T.ROBOVAC_SERIES s ∨ (s = s0 ∧ x = n) := by
  by_cases h : s = s0
  · subst h
    rw [addModel_series_same]
    have := List.take_append_drop k (T.ROBOVAC_SERIES s)
    constructor
    · intro hx
      simp only [List.mem_append, List.mem_cons] at hx
      rcases hx with hx | hx | hx
      · exact Or.inl (List.mem_of_mem_take hx)
      · exact Or.inr ⟨rfl, hx⟩
      · exact Or.inl (List.mem_of_mem_drop hx)
    · rintro (hx | ⟨-, rfl⟩)
      · rw [← this] at hx
        simp only [List.mem_append, List.mem_cons] at hx ⊢
        rcases hx with hx | hx
        · exact Or.inl hx
        · exact Or.inr (Or.inr hx)
      · simp
  · rw [addModel_series_other T s0 s k n h]
    simp [h]

theorem mem_HAS_MAP_addModel (T : Tables) (s0 : Series) (k : Nat) (n x : String)
    (hx : x ≠ n) :
    x ∈ HAS_MAP_FEATURE (addModel T s0 k n) ↔ x ∈ HAS_MAP_FEATURE T := by
  unfold HAS_MAP_FEATURE
  simp only [List.mem_cons, List.mem_append, mem_addModel, hx, and_false, or_false]

/-- The descriptor of an identifier other than `n` is the same before and
after `n` is added. -/
theorem file_addModel (T : Tables) (s0 s : Series) (k : Nat) (n m : String) (hm : m ≠ n) :
    file (addModel T s0 k n) s m = file T s m := by
  have hmap := mem_HAS_MAP_addModel T s0 k n m hm
  have hha : homeassistant_features (addModel T s0 k n) m = homeassistant_features T m := by
    unfold homeassistant_features
    simp only [contains_iff, hmap]
  have hrf : robovac_features (addModel T s0 k n) s m = robovac_features T s m := by
    unfold robovac_features
    simp only [contains_iff, hmap, addModel_HAS_CONSUMABLES, addModel_FEATURES]
  have hex : extra_commands (addModel T s0 k n) s m = extra_commands T s m := by
    unfold extra_commands
    simp only [hrf, addModel_commands]
  unfold file
  rw [hha, hrf, hex, addModel_FAN_SPEEDS]

/-- Inserting one element into the list of one key inserts it into the
concatenation over all keys. -/
theorem flatMap_insert {α β : Type} (keys : List α) (hk : keys.Nodup) (f g : α → List β)
    (s0 : α) (hs0 : s0 ∈ keys) (a b : List β) (x : β) (hf : f s0 = a ++ b)
    (hg : g s0 = a ++ x :: b) (hother : ∀ s ∈ keys, s ≠ s0 → g s = f s) :
    ∃ l r : List β, keys.flatMap f = l ++ r ∧ keys.flatMap g = l ++ x :: r := by
  induction keys with
  | nil => exact absurd hs0 (List.not_mem_nil _)
  | cons t keys ih =>
    rw [List.nodup_cons] at hk
    simp only [List.flatMap_cons]
    by_cases ht : t = s0
    · subst ht
      have hrest : keys.flatMap g = keys.flatMap f := by
        apply List.flatMap_congr
        intro s hs
        exact hother s (List.mem_cons_of_mem _ hs) (fun e => hk.1 (e ▸ hs))
      refine ⟨a, b ++ keys.flatMap f, ?_, ?_⟩
      · rw [hf, List.append_assoc]
      · rw [hg, hrest, List.append_assoc, List.cons_append]
    · have hmem : s0 ∈ keys := by
        rcases List.mem_cons.mp hs0 with e | e
        · exact absurd e.symm ht
        · exact e
      obtain ⟨l, r, h1, h2⟩ := ih hk.2 hmem fun s hs => hother s (List.mem_cons_of_mem _ hs)
      refine ⟨f t ++ l, r, ?_, ?_⟩
      · rw [h1, List.append_assoc]
      · rw [h2, hother t (List.mem_cons_self _ _) ht, List.append_assoc]

theorem modelWrites_addModel (T : Tables) (s0 : Series) (k : Nat) (n : String)
    (hn : ∀ s, n ∉ T.ROBOVAC_SERIES s) :
    ∃ l r : List (String × String),
      modelWrites T = l ++ r
        ∧ modelWrites (addModel T s0 k n)
            = l ++ (concat [n, ".py"], file (addModel T s0 k n) s0 n) :: r := by
  have hf : modelWrites T = Series.keys.flatMap fun s =>
      (T.ROBOVAC_SERIES s).map fun m => (concat [m, ".py"], file T s m) := by
    simp [modelWrites, entries, List.flatMap_map]
  have hg : modelWrites (addModel T s0 k n) = Series.keys.flatMap fun s =>
      ((addModel T s0 k n).ROBOVAC_SERIES s).map fun m =>
        (concat [m, ".py"], file (addModel T s0 k n) s m) := by
    simp [modelWrites, entries, List.flatMap_map]
  rw [hf, hg]
  refine flatMap_insert Series.keys (by decide) _ _ s0 (by cases s0 <;> decide)
    (((T.ROBOVAC_SERIES s0).take k).map fun m => (concat [m, ".py"], file T s0 m))
    (((T.ROBOVAC_SERIES s0).drop k).map fun m => (concat [m, ".py"], file T s0 m))
    _ ?_ ?_ ?_
  · rw [← List.map_append, List.take_append_drop]
  · rw [addModel_series_same, List.map_append, List.map_cons]
    congr 1
    · apply List.map_congr_left
      intro m hm
      rw [file_addModel T s0 s0 k n m (fun e => hn s0 (e ▸ List.mem_of_mem_take hm))]
    · congr 1
      apply List.map_congr_left
      intro m hm
      rw [file_addModel T s0 s0 k n m (fun e => hn s0 (e ▸ List.mem_of_mem_drop hm))]
  · intro s _ hs
    rw [addModel_series_other T s0 s k n hs]
    apply List.map_congr_left
    intro m hm
    rw [file_addModel T s0 s k n m (fun e => hn s (e ▸ hm))]

theorem allModels_addModel (T : Tables) (s0 : Series) (k : Nat) (n : String) :
    ∃ a b : List String,
      allModels T = a ++ b ∧ allModels (addModel T s0 k n) = a ++ n :: b := by
  have hf : allModels T = Series.keys.flatMap fun s => T.ROBOVAC_SERIES s := by
    simp [allModels, entries, List.flatMap_map]
  have hg : allModels (addModel T s0 k n)
      = Series.keys.flatMap fun s => (addModel T s0 k n).ROBOVAC_SERIES s := by
    simp [allModels, entries, List.flatMap_map]
  rw [hf, hg]
  refine flatMap_insert Series.keys (by decide) _ _ s0 (by cases s0 <;> decide)
    ((T.ROBOVAC_SERIES s0).take k) ((T.ROBOVAC_SERIES s0).drop k) n ?_ ?_ ?_
  · exact (List.take_append_drop k _).symm
  · exact addModel_series_same T s0 k n
  · intro s _ hs
    exact addModel_series_other T s0 s k n hs

/-! ## Lemmas on paths -/

theorem segmentsAux_append (cur a b : List Char) :
    segmentsAux cur (a ++ '/' :: b) = segmentsAux cur a ++ segmentsAux [] b := by
  induction a generalizing cur with
  | nil => simp [segmentsAux]
  | cons c a ih =>
    rw [List.cons_append, segmentsAux, segmentsAux]
    by_cases hc : c = '/'
    · rw [if_pos hc, if_pos hc, ih, List.cons_append]
    · rw [if_neg hc, if_neg hc, ih]

theorem segmentsAux_of_not_mem (cur a : List Char) (h : '/' ∉ a) :
    segmentsAux cur a = [String.mk (cur.reverse ++ a)] := by
  induction a generalizing cur with
  | nil => simp [segmentsAux]
  | cons c a ih =>
    have hc : c ≠ '/' := fun e => h (e ▸ List.mem_cons_self _ _)
    have ha : '/' ∉ a := fun e => h (List.mem_cons_of_mem _ e)
    simp only [segmentsAux, hc, if_false]
    rw [ih _ ha]
    simp

theorem segments_append (a b : String) :
    segments (a ++ ("/" ++ b)) = segments a ++ segments b := by
  unfold segments
  rw [String.data_append, String.data_append]
  exact segmentsAux_append [] a.data b.data

theorem segments_of_not_mem (a : String) (h : '/' ∉ a.data) : segments a = [a] := by
  unfold segments
  rw [segmentsAux_of_not_mem [] a.data h]
  rfl

/-- The segments of the text that `path.join` makes of the directory of the
script, the three directory names and a file name, without the segments of the
directory of the script. -/
theorem segments_rest (name : String) :
    segments (join "/" ["custom_components", "robovac", "vacuums", name])
      = "custom_components" :: "robovac" :: "vacuums" :: segments name := by
  show segments ("custom_components" ++ ("/" ++ ("robovac" ++ ("/" ++ ("vacuums" ++ ("/" ++ name))))))
    = _
  rw [segments_append, segments_append, segments_append,
    segments_of_not_mem "custom_components" (by decide),
    segments_of_not_mem "robovac" (by decide), segments_of_not_mem "vacuums" (by decide)]
  rfl


theorem data_ne_nil {a : String} (h : a ≠ "") : a.data ≠ [] :=
  fun e => h (String.ext e)

theorem getLast?_rest (name : String) (h : name ≠ "") :
    (join "/" ["custom_components", "robovac", "vacuums", name]).data.getLast?
      = name.data.getLast? := by
  show ("custom_components" ++ ("/" ++ ("robovac" ++ ("/" ++ ("vacuums" ++ ("/" ++ name)))))).data.getLast?
    = _
  simp only [String.data_append]
  rw [List.getLast?_append_of_ne_nil _ (by simp [data_ne_nil h])]
  rw [List.getLast?_append_of_ne_nil _ (by simp [data_ne_nil h])]
  rw [List.getLast?_append_of_ne_nil _ (by simp [data_ne_nil h])]
  rw [List.getLast?_append_of_ne_nil _ (by simp [data_ne_nil h])]
  rw [List.getLast?_append_of_ne_nil _ (by simp [data_ne_nil h])]
  rw [List.getLast?_append_of_ne_nil _ (data_ne_nil h)]

theorem rest_ne_empty (name : String) :
    join "/" ["custom_components", "robovac", "vacuums", name] ≠ "" := by
  intro e
  have h := congrArg (fun s => s.data.head?) e
  revert h
  show ("custom_components" ++ ("/" ++ ("robovac" ++ ("/" ++ ("vacuums" ++ ("/" ++ name)))))).data.head?
    = "".data.head? → False
  simp only [String.data_append, List.head?_append]
  intro h
  simp at h

/-- The path of a write in terms of the segments of the directory of the
script and of the file name. -/
theorem writePath_eq (dirname name : String) (h : name ≠ "") :
    writePath dirname name =
      renderPath (decide (dirname.data.head? = some '/'))
        (decide (name.data.getLast? = some '/'))
        ((("custom_components" :: "robovac" :: "vacuums" :: segments name).foldl
            (normalizeStep (!decide (dirname.data.head? = some '/')))
            ((segments dirname).foldl
              (normalizeStep (!decide (dirname.data.head? = some '/'))) [])).reverse) := by
  unfold writePath pathJoin
  by_cases hd : dirname = ""
  · subst hd
    have hparts : (["", "custom_components", "robovac", "vacuums", name].filter
        fun arg => decide (arg ≠ "")) = ["custom_components", "robovac", "vacuums", name] := by
      simp [h]
    simp only [hparts]
    rw [if_neg (by simp)]
    unfold normalize
    rw [if_neg (rest_ne_empty name)]
    simp only [keptSegments, segments_rest, getLast?_rest name h]
    have h1 : (join "/" ["custom_components", "robovac", "vacuums", name]).data.head?
        = some 'c' := by
      show ("custom_components" ++ ("/" ++ ("robovac" ++ ("/" ++ ("vacuums" ++ ("/" ++ name)))))).data.head?
        = _
      simp only [String.data_append, List.head?_append]
      rfl
    rw [h1]
    rfl
  · have hparts : ([dirname, "custom_components", "robovac", "vacuums", name].filter
        fun arg => decide (arg ≠ "")) = [dirname, "custom_components", "robovac", "vacuums", name] := by
      simp [h, hd]
    simp only [hparts]
    rw [if_neg (by simp)]
    have hj : join "/" [dirname, "custom_components", "robovac", "vacuums", name]
        = dirname ++ ("/" ++ join "/" ["custom_components", "robovac", "vacuums", name]) := rfl
    rw [hj]
    unfold normalize
    have hne : dirname ++ ("/" ++ join "/" ["custom_components", "robovac", "vacuums", name])
        ≠ "" := by
      intro e
      have := congrArg String.data e
      simp [data_ne_nil hd] at this
    rw [if_neg hne]
    have hhead : (dirname ++ ("/" ++ join "/" ["custom_components", "robovac", "vacuums", name])).data.head?
        = dirname.data.head? := by
      rw [String.data_append, List.head?_append_of_ne_nil _ (data_ne_nil hd)]
    have hlast : (dirname ++ ("/" ++ join "/" ["custom_components", "robovac", "vacuums", name])).data.getLast?
        = name.data.getLast? := by
      rw [String.data_append, List.getLast?_append_of_ne_nil _ (by simp), String.data_append,
        List.getLast?_append_of_ne_nil _ (data_ne_nil (rest_ne_empty name)), getLast?_rest name h]
    simp only [hhead, hlast, keptSegments, segments_append, segments_rest, List.foldl_append]


theorem vacuumsDir_eq (dirname : String) :
    vacuumsDir dirname =
      renderPath (decide (dirname.data.head? = some '/')) false
        (((segments dirname).foldl
            (normalizeStep (!decide (dirname.data.head? = some '/'))) []).reverse
          ++ ["custom_components", "robovac", "vacuums"]) := by
  have hseg : segments (join "/" ["custom_components", "robovac", "vacuums"])
      = ["custom_components", "robovac", "vacuums"] := by decide
  have hlast : (join "/" ["custom_components", "robovac", "vacuums"]).data.getLast?
      = some 's' := by decide
  have hne : join "/" ["custom_components", "robovac", "vacuums"] ≠ "" := by decide
  have hstep : ∀ (b : Bool) (K : List String),
      (["custom_components", "robovac", "vacuums"].foldl (normalizeStep b) K).reverse
        = K.reverse ++ ["custom_components", "robovac", "vacuums"] := by
    intro b K
    simp [normalizeStep]
  unfold vacuumsDir pathJoin
  by_cases hd : dirname = ""
  · subst hd
    have hparts : (["", "custom_components", "robovac", "vacuums"].filter
        fun arg => decide (arg ≠ "")) = ["custom_components", "robovac", "vacuums"] := by
      decide
    simp only [hparts]
    rw [if_neg (by simp)]
    unfold normalize
    rw [if_neg hne]
    simp only [keptSegments, hseg, hlast, hstep]
    rfl
  · have hparts : ([dirname, "custom_components", "robovac", "vacuums"].filter
        fun arg => decide (arg ≠ "")) = [dirname, "custom_components", "robovac", "vacuums"] := by
      simp [hd]
    simp only [hparts]
    rw [if_neg (by simp)]
    have hj : join "/" [dirname, "custom_components", "robovac", "vacuums"]
        = dirname ++ ("/" ++ join "/" ["custom_components", "robovac", "vacuums"]) := rfl
    rw [hj]
    unfold normalize
    have hne2 : dirname ++ ("/" ++ join "/" ["custom_components", "robovac", "vacuums"])
        ≠ "" := by
      intro e
      have := congrArg String.data e
      simp [data_ne_nil hd] at this
    rw [if_neg hne2]
    have hhead : (dirname ++ ("/" ++ join "/" ["custom_components", "robovac", "vacuums"])).data.head?
        = dirname.data.head? := by
      rw [String.data_append, List.head?_append_of_ne_nil _ (data_ne_nil hd)]
    have hlast2 : (dirname ++ ("/" ++ join "/" ["custom_components", "robovac", "vacuums"])).data.getLast?
        = some 's' := by
      rw [String.data_append, List.getLast?_append_of_ne_nil _ (by simp), String.data_append,
        List.getLast?_append_of_ne_nil _ (data_ne_nil hne), hlast]
    simp only [hhead, hlast2, keptSegments, segments_append, hseg, List.foldl_append, hstep]
    rfl

theorem join_append_singleton (sep x : String) (xs : List String) (h : xs ≠ []) :
    join sep (xs ++ [x]) = join sep xs ++ (sep ++ x) := by
  induction xs with
  | nil => exact absurd rfl h
  | cons y ys ih =>
    cases ys with
    | nil => rfl
    | cons z zs =>
      show y ++ (sep ++ join sep ((z :: zs) ++ [x])) = (y ++ (sep ++ join sep (z :: zs))) ++ _
      rw [ih (by simp), String.append_assoc, String.append_assoc]

/-- For a file name that is one plain segment, `path.join` puts the name into
the directory of the generated files unchanged. -/
theorem writePath_plain (dirname name : String) (hs : '/' ∉ name.data) (h0 : name ≠ "")
    (h1 : name ≠ ".") (h2 : name ≠ "..") :
    writePath dirname name = vacuumsDir dirname ++ ("/" ++ name) := by
  have hlast : decide (name.data.getLast? = some '/') = false := by
    rw [decide_eq_false_iff_not]
    intro e
    exact hs (List.mem_of_mem_getLast? e)
  have hstep : ∀ (b : Bool) (K : List String),
      (["custom_components", "robovac", "vacuums", name].foldl (normalizeStep b) K).reverse
        = (K.reverse ++ ["custom_components", "robovac", "vacuums"]) ++ [name] := by
    intro b K
    simp [normalizeStep, h0, h1, h2]
  rw [writePath_eq dirname name h0, vacuumsDir_eq, segments_of_not_mem name hs, hlast, hstep]
  unfold renderPath
  simp only []
  rw [join_append_singleton _ _ _ (by simp)]
  have hne1 : join "/" ((List.foldl (normalizeStep !decide (dirname.data.head? = some '/')) []
      (segments dirname)).reverse ++ ["custom_components", "robovac", "vacuums"])
        ++ ("/" ++ name) ≠ "" := by
    intro e
    have := congrArg String.data e
    simp at this
  have hne2 : join "/" ((List.foldl (normalizeStep !decide (dirname.data.head? = some '/')) []
      (segments dirname)).reverse ++ ["custom_components", "robovac", "vacuums"]) ≠ "" := by
    have ea : ∀ K : List String, K ++ ["custom_components", "robovac", "vacuums"]
        = (K ++ ["custom_components", "robovac"]) ++ ["vacuums"] := by
      intro K
      simp
    rw [ea, join_append_singleton _ _ _ (by simp)]
    intro e
    have := congrArg String.data e
    simp at this
  rw [if_neg hne1, if_neg hne2]
  simp only [concat_cons, concat_nil, String.append_empty, String.append_assoc, Bool.false_eq_true,
    if_false]

/-! ## Lemmas on the paths of the descriptors -/

theorem pyName_plain (x : String) (hs : '/' ∉ x.data) :
    '/' ∉ (concat [x, ".py"]).data
      ∧ concat [x, ".py"] ≠ "" ∧ concat [x, ".py"] ≠ "." ∧ concat [x, ".py"] ≠ ".." := by
  have hlen : (concat [x, ".py"]).data.length = x.data.length + 3 := by
    simp [concat_cons, concat_nil]
  refine ⟨?_, ?_, ?_, ?_⟩
  · simp only [concat_cons, concat_nil, String.data_append, String.append_empty, List.mem_append,
      not_or]
    exact ⟨hs, by decide⟩
  · intro e
    rw [e] at hlen
    have : "".data.length = 0 := rfl
    omega
  · intro e
    rw [e] at hlen
    have : ".".data.length = 1 := rfl
    omega
  · intro e
    rw [e] at hlen
    have : "..".data.length = 2 := rfl
    omega

/-- The path of the descriptor of an identifier without separator. -/
theorem writePath_py (dirname x : String) (hs : '/' ∉ x.data) :
    writePath dirname (concat [x, ".py"]) = vacuumsDir dirname ++ ("/" ++ concat [x, ".py"]) :=
  writePath_plain dirname _ (pyName_plain x hs).1 (pyName_plain x hs).2.1
    (pyName_plain x hs).2.2.1 (pyName_plain x hs).2.2.2

theorem writePath_py_injective (dirname x y : String) (hx : '/' ∉ x.data) (hy : '/' ∉ y.data)
    (h : writePath dirname (concat [x, ".py"]) = writePath dirname (concat [y, ".py"])) :
    x = y := by
  rw [writePath_py dirname x hx, writePath_py dirname y hy] at h
  have h2 := congrArg String.data h
  simp only [String.data_append] at h2
  have h3 := List.append_cancel_left (List.append_cancel_left h2)
  exact pyName_injective (String.ext h3)

theorem modelFiles_addModel (T : Tables) (s0 : Series) (k : Nat) (n dirname : String)
    (hn : ∀ s, n ∉ T.ROBOVAC_SERIES s) :
    ∃ l r : List (String × String),
      modelFiles dirname T = l ++ r
        ∧ modelFiles dirname (addModel T s0 k n)
            = l ++ (writePath dirname (concat [n, ".py"]), file (addModel T s0 k n) s0 n) :: r := by
  obtain ⟨l, r, h1, h2⟩ := modelWrites_addModel T s0 k n hn
  refine ⟨l.map fun w => (writePath dirname w.1, w.2), r.map fun w => (writePath dirname w.1, w.2),
    ?_, ?_⟩
  · unfold modelFiles
    rw [h1, List.map_append]
  · unfold modelFiles
    rw [h2, List.map_append, List.map_cons]

theorem paths_filesWritten (dirname : String) (T : Tables) :
    (filesWritten dirname T).map Prod.fst
      = ((allModels T).map fun m : String => writePath dirname (concat [m, ".py"]))
        ++ [writePath dirname "__init__.py"] := by
  have h := names_generate T
  unfold filesWritten
  rw [List.map_map]
  have e : (Prod.fst ∘ fun w : String × String => (writePath dirname w.1, w.2))
      = (fun name => writePath dirname name) ∘ Prod.fst := rfl
  rw [e, ← List.map_map, h, List.map_append, List.map_map]
  rfl

/-- On the tables of the script `path.join` changes no file name: every write
goes to the file of its name in the directory of the generated files. -/
theorem writePath_generate_tables (dirname name : String)
    (h : name ∈ (generate tables).map Prod.fst) :
    writePath dirname name = vacuumsDir dirname ++ ("/" ++ name) := by
  have hplain : ∀ m ∈ allModels tables, '/' ∉ m.data := by decide
  rw [names_generate, List.mem_append, List.mem_singleton] at h
  rcases h with h | h
  · obtain ⟨m, hm, rfl⟩ := List.mem_map.mp h
    exact writePath_py dirname m (hplain m hm)
  · rw [h]
    exact writePath_py dirname "__init__" (by decide)

/-! ## Adding a model to a series -/

/-- C11, as stated, fails. The identifier `./T2103` occurs in none of the tables
of the script; when it is added to series `C`, `path.join` gives its descriptor
the path of the descriptor of `T2103`, so that no file is added and one file is
written with two different texts. The identifier `__init__` is in none of the
tables either, and its descriptor gets the path of the index. And with tables
that list `./T9999`, the descriptor of the new identifier `T9999` gets the path
of the descriptor of `./T9999`. -/
theorem add_model_path_collision :
    ("./T2103" ∉ allModels tables ∧ "./T2103" ∉ HAS_MAP_FEATURE tables
        ∧ "./T2103" ∉ HAS_CONSUMABLES
        ∧ (writePath "/opt/app" (concat ["./T2103", ".py"]),
              file (addModel tables Series.C 9 "./T2103") Series.C "./T2103")
            ∈ modelFiles "/opt/app" (addModel tables Series.C 9 "./T2103")
        ∧ (writePath "/opt/app" (concat ["T2103", ".py"]), file tables Series.C "T2103")
            ∈ modelFiles "/opt/app" tables
        ∧ writePath "/opt/app" (concat ["./T2103", ".py"])
            = writePath "/opt/app" (concat ["T2103", ".py"])
        ∧ writePath "/opt/app" (concat ["T2103", ".py"])
            = "/opt/app/custom_components/robovac/vacuums/T2103.py"
        ∧ file (addModel tables Series.C 9 "./T2103") Series.C "./T2103"
            ≠ file tables Series.C "T2103")
      ∧ ("__init__" ∉ allModels tables ∧ "__init__" ∉ HAS_MAP_FEATURE tables
        ∧ "__init__" ∉ HAS_CONSUMABLES
        ∧ (writePath "/opt/app" (concat ["__init__", ".py"]),
              file (addModel tables Series.C 9 "__init__") Series.C "__init__")
            ∈ modelFiles "/opt/app" (addModel tables Series.C 9 "__init__")
        ∧ writePath "/opt/app" (concat ["__init__", ".py"])
            = writePath "/opt/app" (initWrite tables).1)
      ∧ ("T9999" ∉ allModels (addModel tables Series.C 9 "./T9999")
        ∧ "./T9999" ∈ allModels (addModel tables Series.C 9 "./T9999")
        ∧ writePath "/opt/app" (concat ["T9999", ".py"])
            = writePath "/opt/app" (concat ["./T9999", ".py"])) := by
  have hmem : ∀ (T : Tables) (s : Series) (m : String), m ∈ T.ROBOVAC_SERIES s →
      (writePath "/opt/app" (concat [m, ".py"]), file T s m) ∈ modelFiles "/opt/app" T :=
    fun T s m hm => List.mem_map.mpr ⟨_, mem_modelWrites T s m hm, rfl⟩
  refine ⟨⟨by decide, by decide, by decide, hmem _ _ _ (by decide), hmem _ _ _ (by decide),
    by decide, by decide, ?_⟩, ⟨by decide, by decide, by decide, hmem _ _ _ (by decide), rfl⟩,
    by decide, by decide, by decide⟩
  intro e
  have h := congrArg (fun t : String => t.data.take 135) e
  revert h
  decide

/-- C11, amended: with the generator taken as a function of its tables and of
the directory of the script, for tables whose listed identifiers have no path
separator and an identifier `n` that no membership list holds, that has no
path separator and is not `__init__`, adding `n` to the list of one series, at
any position, inserts exactly one file among the descriptor files: the
descriptor of `n`, at the path of `n.py` in the directory of the generated
files, which is the path of no file of the run before; every earlier
descriptor file keeps its path and its text (also when the series is `L` or
`X`, where `n` becomes map-capable); and the index gains exactly the import
line and the entry of `n`, the earlier lines keeping their order. -/
theorem add_model_frame (T : Tables) (s0 : Series) (k : Nat) (n dirname : String)
    (hn : ∀ s : Series, n ∉ T.ROBOVAC_SERIES s)
    (hT : ∀ s : Series, ∀ m ∈ T.ROBOVAC_SERIES s, '/' ∉ m.data)
    (hsep : '/' ∉ n.data) (hinit : n ≠ "__init__") :
    (∃ l r : List (String × String),
        modelFiles dirname T = l ++ r
          ∧ modelFiles dirname (addModel T s0 k n)
              = l ++ (writePath dirname (concat [n, ".py"]), file (addModel T s0 k n) s0 n) :: r)
      ∧ writePath dirname (concat [n, ".py"]) = concat [vacuumsDir dirname, "/", n, ".py"]
      ∧ writePath dirname (concat [n, ".py"]) ∉ (filesWritten dirname T).map Prod.fst
      ∧ (∀ (s : Series) (m : String), m ∈ T.ROBOVAC_SERIES s →
          file (addModel T s0 k n) s m = file T s m)
      ∧ (∃ a b : List String,
          allModels T = a ++ b
            ∧ allModels (addModel T s0 k n) = a ++ n :: b
            ∧ initFile T =
                concat
                  [ join "\n" (a.map importLine ++ b.map importLine), "\n",
                    "\n",
                    "\n",
                    "ROBOVAC_MODELS = \x7b\n",
                    join ",\n" (a.map modelEntry ++ b.map modelEntry), "\n",
                    "\x7d" ]
            ∧ initFile (addModel T s0 k n) =
                concat
                  [ join "\n" (a.map importLine ++ importLine n :: b.map importLine), "\n",
                    "\n",
                    "\n",
                    "ROBOVAC_MODELS = \x7b\n",
                    join ",\n" (a.map modelEntry ++ modelEntry n :: b.map modelEntry), "\n",
                    "\x7d" ])
      ∧ importLine n ∉ (allModels T).map importLine
      ∧ modelEntry n ∉ (allModels T).map modelEntry := by
  have hall : n ∉ allModels T := fun h => by
    obtain ⟨s, hs⟩ := (mem_allModels T n).mp h
    exact hn s hs
  refine ⟨modelFiles_addModel T s0 k n dirname hn, ?_, ?_,
    fun s m hm => file_addModel T s0 s k n m (fun e => hn s (e ▸ hm)), ?_, ?_, ?_⟩
  · rw [writePath_py dirname n hsep]
    simp only [concat_cons, concat_nil, String.append_empty]
  · intro h
    rw [paths_filesWritten, List.mem_append, List.mem_singleton] at h
    rcases h with h | h
    · obtain ⟨m, hm, e⟩ := List.mem_map.mp h
      obtain ⟨s, hs⟩ := (mem_allModels T m).mp hm
      exact hall (writePath_py_injective dirname m n (hT s m hs) hsep e ▸ hm)
    · exact hinit (writePath_py_injective dirname n "__init__" hsep (by decide) h)
  · obtain ⟨a, b, h1, h2⟩ := allModels_addModel T s0 k n
    refine ⟨a, b, h1, h2, ?_, ?_⟩
    · unfold initFile
      rw [h1, List.map_append, List.map_append]
    · unfold initFile
      rw [h2, List.map_append, List.map_append, List.map_cons, List.map_cons]
  · intro h
    obtain ⟨m, hm, e⟩ := List.mem_map.mp h
    exact hall (importLine_injective e ▸ hm)
  · intro h
    obtain ⟨m, hm, e⟩ := List.mem_map.mp h
    exact hall (modelEntry_injective e ▸ hm)

/-- Instance of the amended C11: the identifier `T9999` added at the end of
series `L` of the tables of the script, run from the directory `/opt/app`. -/
theorem add_model_frame_T9999 :
    (∀ s : Series, "T9999" ∉ tables.ROBOVAC_SERIES s)
      ∧ (∀ s : Series, ∀ m ∈ tables.ROBOVAC_SERIES s, '/' ∉ m.data)
      ∧ '/' ∉ "T9999".data
      ∧ "T9999" ≠ "__init__"
      ∧ (∃ l r : List (String × String),
          modelFiles "/opt/app" tables = l ++ r
            ∧ modelFiles "/opt/app" (addModel tables Series.L 6 "T9999")
                = l ++ (writePath "/opt/app" (concat ["T9999", ".py"]),
                    file (addModel tables Series.L 6 "T9999") Series.L "T9999") :: r)
      ∧ writePath "/opt/app" (concat ["T9999", ".py"])
          = concat [vacuumsDir "/opt/app", "/", "T9999", ".py"]
      ∧ writePath "/opt/app" (concat ["T9999", ".py"])
          ∉ (filesWritten "/opt/app" tables).map Prod.fst
      ∧ (∀ (s : Series) (m : String), m ∈ tables.ROBOVAC_SERIES s →
          file (addModel tables Series.L 6 "T9999") s m = file tables s m) :=
  have hn : ∀ s : Series, "T9999" ∉ tables.ROBOVAC_SERIES s := fun s => by
    cases s <;> decide
  have hT : ∀ s : Series, ∀ m ∈ tables.ROBOVAC_SERIES s, '/' ∉ m.data := fun s => by
    cases s <;> decide
  have h := add_model_frame tables Series.L 6 "T9999" "/opt/app" hn hT (by decide) (by decide)
  ⟨hn, hT, by decide, by decide, h.1, h.2.1, h.2.2.1, h.2.2.2.1⟩

/-! ## The derived feature lists -/

/-- C12: the derived `homeassistant_features` of a model is the fixed baseline
of ten tags in the order BATTERY, CLEAN_SPOT, FAN_SPEED, LOCATE, PAUSE,
RETURN_HOME, SEND_COMMAND, START, STATE, STOP, followed by the MAP tag exactly
when the model is in `HAS_MAP_FEATURE`; its length is 11 for these models and
10 for the others. -/
theorem homeassistant_features_baseline (s : Series) (m : String) :
    m ∈ ROBOVAC_SERIES s →
      homeassistant_features tables m =
          [ "VacuumEntityFeature.BATTERY",
            "VacuumEntityFeature.CLEAN_SPOT",
            "VacuumEntityFeature.FAN_SPEED",
            "VacuumEntityFeature.LOCATE",
            "VacuumEntityFeature.PAUSE",
            "VacuumEntityFeature.RETURN_HOME",
            "VacuumEntityFeature.SEND_COMMAND",
            "VacuumEntityFeature.START",
            "VacuumEntityFeature.STATE",
            "VacuumEntityFeature.STOP" ]
            ++ (if m ∈ HAS_MAP_FEATURE tables then ["VacuumEntityFeature.MAP"] else [])
        ∧ (homeassistant_features tables m).length
            = if m ∈ HAS_MAP_FEATURE tables then 11 else 10 := by
  intro _
  unfold homeassistant_features
  by_cases h : m ∈ HAS_MAP_FEATURE tables <;> simp [contains_iff, h]

/-- Instance of C12 at the map-capable model `T2181` of series `L`. -/
theorem homeassistant_features_baseline_T2181 :
    "T2181" ∈ ROBOVAC_SERIES Series.L
      ∧ "T2181" ∈ HAS_MAP_FEATURE tables
      ∧ (homeassistant_features tables "T2181").length = 11 := by
  have h := homeassistant_features_baseline Series.L "T2181" (by decide)
  have hm : "T2181" ∈ HAS_MAP_FEATURE tables := by decide
  refine ⟨by decide, hm, ?_⟩
  rw [h.2, if_pos hm]

/-- C13: the derived `robovac_features` of a model of series `s` is the base
list of `s` in its written order, then the MAP tag when the model is in
`HAS_MAP_FEATURE`, then the CONSUMABLES tag when it is in `HAS_CONSUMABLES`;
run on a heap that holds the lists of `ROBOVAC_SERIES_FEATURES`, as the heap
before the loop does, lines 108 and 122-129 put that list into a new array
object and leave the lists of `ROBOVAC_SERIES_FEATURES` as they were, so that
the derivation for the next model of the series starts from the same base
list. -/
theorem robovac_features_order (s : Series) (m : String) :
    m ∈ ROBOVAC_SERIES s →
      robovac_features tables s m =
          ROBOVAC_SERIES_FEATURES s
            ++ (if m ∈ HAS_MAP_FEATURE tables then ["RoboVacEntityFeature.MAP"] else [])
            ++ (if m ∈ HAS_CONSUMABLES then ["RoboVacEntityFeature.CONSUMABLES"] else [])
        ∧ (∀ s2 : Series,
            (initialHeap tables).read (featuresAddress s2) = ROBOVAC_SERIES_FEATURES s2)
        ∧ ∀ (base : Series → Nat) (h : Heap),
            (∀ s2 : Series, h.read (base s2) = ROBOVAC_SERIES_FEATURES s2) →
              (deriveFeatures tables base h s m).1.read (deriveFeatures tables base h s m).2
                  = robovac_features tables s m
                ∧ (∀ s2 : Series,
                    (deriveFeatures tables base h s m).1.read (base s2)
                      = ROBOVAC_SERIES_FEATURES s2)
                ∧ ∀ m2 : String,
                    (deriveFeatures tables base (deriveFeatures tables base h s m).1 s m2).1.read
                        (deriveFeatures tables base (deriveFeatures tables base h s m).1 s m2).2
                      = robovac_features tables s m2 := by
  intro _
  refine ⟨robovac_features_eq tables s m, ?_, ?_⟩
  · intro s2
    cases s2 <;> rfl
  · intro base h hinv
    have hspec := deriveFeatures_spec tables base h s m (hinv s)
    have hframe : ∀ s2 : Series,
        (deriveFeatures tables base h s m).1.read (base s2) = ROBOVAC_SERIES_FEATURES s2 := by
      intro s2
      rw [hspec.2.1 _ (lt_length_of_read_ne_nil h _ (by rw [hinv s2]; exact features_ne_nil s2)),
        hinv s2]
    exact ⟨hspec.1, hframe, fun m2 =>
      (deriveFeatures_spec tables base _ s m2 (hframe s)).1⟩

/-- Instance of C13 at model `T2253` of series `G`, which is in both
capability lists, on the heap before the loop. -/
theorem robovac_features_order_T2253 :
    "T2253" ∈ ROBOVAC_SERIES Series.G
      ∧ robovac_features tables Series.G "T2253" =
          [ "RoboVacEntityFeature.CLEANING_TIME",
            "RoboVacEntityFeature.CLEANING_AREA",
            "RoboVacEntityFeature.DO_NOT_DISTURB",
            "RoboVacEntityFeature.AUTO_RETURN",
            "RoboVacEntityFeature.MAP",
            "RoboVacEntityFeature.CONSUMABLES" ]
      ∧ (deriveFeatures tables featuresAddress (initialHeap tables) Series.G "T2253").1.read
            (featuresAddress Series.G)
          = ROBOVAC_SERIES_FEATURES Series.G := by
  have h := robovac_features_order Series.G "T2253" (by decide)
  refine ⟨by decide, h.1.trans (by decide), ?_⟩
  exact ((h.2.2 featuresAddress (initialHeap tables) h.2.1).2.1 Series.G)

/-- C18: for a model of any series the derived `robovac_features` is not
empty and has no duplicate tag, and so is the derived
`homeassistant_features`. -/
theorem features_nonempty_nodup (s : Series) (m : String) :
    m ∈ ROBOVAC_SERIES s →
      robovac_features tables s m ≠ []
        ∧ (robovac_features tables s m).Nodup
        ∧ homeassistant_features tables m ≠ []
        ∧ (homeassistant_features tables m).Nodup := by
  intro _
  have e : tables.HAS_CONSUMABLES = HAS_CONSUMABLES := rfl
  refine ⟨?_, ?_, ?_, ?_⟩
  · rw [robovac_features_eq]
    cases s <;> simp [tables, ROBOVAC_SERIES_FEATURES]
  · rw [robovac_features_eq, e]
    by_cases h1 : m ∈ HAS_MAP_FEATURE tables <;> by_cases h2 : m ∈ HAS_CONSUMABLES <;>
      simp only [h1, h2, if_true, if_false] <;> cases s <;> decide
  · unfold homeassistant_features
    split <;> simp
  · unfold homeassistant_features
    split <;> decide

/-- Instance of C18 at model `T2253` of series `G`, which gets both appended
tags. -/
theorem features_nonempty_nodup_T2253 :
    "T2253" ∈ ROBOVAC_SERIES Series.G
      ∧ robovac_features tables Series.G "T2253" ≠ []
      ∧ (robovac_features tables Series.G "T2253").Nodup
      ∧ homeassistant_features tables "T2253" ≠ []
      ∧ (homeassistant_features tables "T2253").Nodup :=
  ⟨by decide, features_nonempty_nodup Series.G "T2253" (by decide)⟩

/-! ## Order of the placeholder entries and the marker -/

/-- C14: the placeholder lines of a model are the lines of a list of names
that is a sublist of `commands`, in the order of `commands`, without a
repeated name: the names of `commands` whose tag is in the derived
`robovac_features`, whatever the order of the tags there; the marker stands in
front when there is a name. -/
theorem placeholders_in_declaration_order (s : Series) (m : String) :
    m ∈ ROBOVAC_SERIES s →
      ∃ names : List String,
        names.Sublist commands
          ∧ names.Nodup
          ∧ (∀ c, c ∈ names ↔
              c ∈ commands ∧ concat ["RoboVacEntityFeature.", c] ∈ robovac_features tables s m)
          ∧ extra_commands tables s m
              = (if names.length > 0 then [marker] else []) ++ names.map placeholder := by
  intro _
  refine ⟨commands.filter fun command =>
      (robovac_features tables s m).contains (concat ["RoboVacEntityFeature.", command]),
    List.filter_sublist _, List.Nodup.filter _ (by decide), ?_, ?_⟩
  · intro c
    simp only [List.mem_filter, contains_iff]
  · have e : tables.commands = commands := rfl
    unfold extra_commands
    simp only [List.length_map, e]
    split <;> rename_i h <;> simp [h]

/-- Instance of C14 at model `T2250` of series `G`: the base list of `G` has
CLEANING_TIME before CLEANING_AREA, the placeholder list has the line of
CLEANING_AREA first. -/
theorem placeholders_in_declaration_order_T2250 :
    "T2250" ∈ ROBOVAC_SERIES Series.G
      ∧ (∃ names : List String,
          names.Sublist commands
            ∧ names.Nodup
            ∧ (∀ c, c ∈ names ↔
                c ∈ commands
                  ∧ concat ["RoboVacEntityFeature.", c]
                      ∈ robovac_features tables Series.G "T2250")
            ∧ extra_commands tables Series.G "T2250"
                = (if names.length > 0 then [marker] else []) ++ names.map placeholder)
      ∧ (ROBOVAC_SERIES_FEATURES Series.G).take 2
          = ["RoboVacEntityFeature.CLEANING_TIME", "RoboVacEntityFeature.CLEANING_AREA"]
      ∧ (extra_commands tables Series.G "T2250").take 3
          = [marker, placeholder "CLEANING_AREA", placeholder "CLEANING_TIME"] :=
  ⟨by decide, placeholders_in_declaration_order Series.G "T2250" (by decide), rfl, by decide⟩

/-- C15: the marker occurs in the descriptor of a model exactly when the
model has a placeholder entry; it then occurs exactly once, on the line after
the `ERROR` entry and on the line before the first placeholder entry, and it
is not among the later lines of the placeholder list. -/
theorem marker_once (s : Series) (m : String) (hm : m ∈ ROBOVAC_SERIES s) :
    (occursIn marker (file tables s m) ↔ ∃ c, placeholder c ∈ extra_commands tables s m)
      ∧ ((∃ c, placeholder c ∈ extra_commands tables s m) →
          occurrences marker (file tables s m) = 1
            ∧ ∃ (c : String) (rest : List String) (pre post : String),
                extra_commands tables s m = marker :: placeholder c :: rest
                  ∧ marker ∉ rest
                  ∧ file tables s m =
                      concat
                        [ pre, "        RobovacCommand.ERROR: 106,", "\n        ", marker,
                          "\n        ", placeholder c, post ]) := by
  have hocc := occurrences_marker s m hm
  constructor
  · rw [← occurrences_pos_iff, hocc, ← extra_commands_ne_nil_iff]
    by_cases he : extra_commands tables s m = [] <;> simp [he]
  · intro hex
    have hne := (extra_commands_ne_nil_iff tables s m).mpr hex
    rw [if_neg hne] at hocc
    obtain ⟨c, rest, he, hrest⟩ := extra_commands_shape tables s m hne
    obtain ⟨pre, post, hfile⟩ := file_eq_of_extra_cons tables s m _ _ rest he
    exact ⟨hocc, c, rest, pre, post, he, hrest, hfile⟩

/-- Instance of C15 at model `T1250` of series `G`. -/
theorem marker_once_T1250 :
    "T1250" ∈ ROBOVAC_SERIES Series.G
      ∧ occursIn marker (file tables Series.G "T1250")
      ∧ occurrences marker (file tables Series.G "T1250") = 1 :=
  have h := marker_once Series.G "T1250" (by decide)
  have hex : ∃ c, placeholder c ∈ extra_commands tables Series.G "T1250" :=
    ⟨"CLEANING_AREA", by decide⟩
  ⟨by decide, h.1.mpr hex, (h.2 hex).1⟩

/-! ## Order of the index and the capability lists -/

/-- C16: `allModels` is the concatenation of the lists of series `C`, `G`,
`L` and `X`, each in its written order, 33 identifiers in all; the import
lines of the index and, after them, its entry lines list the models in that
order. -/
theorem allModels_order :
    allModels tables
        = ROBOVAC_SERIES Series.C ++ ROBOVAC_SERIES Series.G ++ ROBOVAC_SERIES Series.L
          ++ ROBOVAC_SERIES Series.X
      ∧ (allModels tables).length = 33
      ∧ lines (initFile tables) =
          (allModels tables).map importLine
            ++ ["", "", "ROBOVAC_MODELS = \x7b"]
            ++ ((allModels tables).dropLast.map fun y => concat [modelEntry y, ","])
            ++ [modelEntry "T2320", "\x7d"]
      ∧ (allModels tables).getLast? = some "T2320" := by
  refine ⟨?_, by decide, lines_initFile, by decide⟩
  simp [allModels, entries, Series.keys, tables]

/-- C17: every element of `HAS_MAP_FEATURE` and every element of
`HAS_CONSUMABLES` is listed in a series, and `HAS_MAP_FEATURE` is `T2253`
followed by the list of series `L` and the list of series `X`. -/
theorem capability_lists_listed :
    (∀ m ∈ HAS_MAP_FEATURE tables, ∃ s : Series, m ∈ ROBOVAC_SERIES s)
      ∧ (∀ m ∈ HAS_CONSUMABLES, ∃ s : Series, m ∈ ROBOVAC_SERIES s)
      ∧ HAS_MAP_FEATURE tables
          = "T2253" :: (ROBOVAC_SERIES Series.L ++ ROBOVAC_SERIES Series.X) := by
  refine ⟨?_, ?_, rfl⟩
  · intro m hm
    exact (mem_allModels tables m).mp (by revert m; decide)
  · intro m hm
    exact (mem_allModels tables m).mp (by revert m; decide)

/-! ## What a descriptor depends on -/

/-- C19: for two models of one series that are both in or both out of
`HAS_MAP_FEATURE` and both in or both out of `HAS_CONSUMABLES`, the
descriptors are the same text around the identifier of the class line: the
two import lines, two empty lines, `class `, the identifier, `:` and one
common remainder. -/
theorem descriptor_depends_on_flags (s : Series) (m1 m2 : String) :
    m1 ∈ ROBOVAC_SERIES s → m2 ∈ ROBOVAC_SERIES s →
      (m1 ∈ HAS_MAP_FEATURE tables ↔ m2 ∈ HAS_MAP_FEATURE tables) →
        (m1 ∈ HAS_CONSUMABLES ↔ m2 ∈ HAS_CONSUMABLES) →
          ∃ post : String,
            file tables s m1 =
                concat
                  [ "from homeassistant.components.vacuum import VacuumEntityFeature\n",
                    "from .base import RoboVacEntityFeature, RobovacCommand\n",
                    "\n",
                    "\n",
                    "class ", m1, ":\n",
                    post ]
              ∧ file tables s m2 =
                concat
                  [ "from homeassistant.components.vacuum import VacuumEntityFeature\n",
                    "from .base import RoboVacEntityFeature, RobovacCommand\n",
                    "\n",
                    "\n",
                    "class ", m2, ":\n",
                    post ] := by
  intro _ _ hmap hcons
  have hrf := robovac_features_congr tables s m1 m2 hmap hcons
  refine ⟨concat
      [ "    homeassistant_features = (\n",
        "        ", join "\n        | " (homeassistant_features tables m1), "\n",
        "    )\n",
        "    robovac_features = ", join " | " (robovac_features tables s m1), "\n",
        fileCommands (JSON_stringify (tables.ROBOVAC_SERIES_FAN_SPEEDS s)),
        fileExtra (extra_commands tables s m1),
        "\n",
        "    \x7d\n" ], ?_, ?_⟩
  · simp only [file, fileHead, concat_cons, concat_nil, String.append_empty,
      String.append_assoc]
  · rw [homeassistant_features_congr tables m1 m2 hmap, hrf,
      extra_commands_congr tables s m1 m2 hrf]
    simp only [file, fileHead, concat_cons, concat_nil, String.append_empty,
      String.append_assoc]

/-- Instance of C19 at the models `T2103` and `T2117` of series `C`. -/
theorem descriptor_depends_on_flags_T2103_T2117 :
    "T2103" ∈ ROBOVAC_SERIES Series.C
      ∧ "T2117" ∈ ROBOVAC_SERIES Series.C
      ∧ ("T2103" ∈ HAS_MAP_FEATURE tables ↔ "T2117" ∈ HAS_MAP_FEATURE tables)
      ∧ ("T2103" ∈ HAS_CONSUMABLES ↔ "T2117" ∈ HAS_CONSUMABLES)
      ∧ ∃ post : String,
          file tables Series.C "T2103" =
              concat
                [ "from homeassistant.components.vacuum import VacuumEntityFeature\n",
                  "from .base import RoboVacEntityFeature, RobovacCommand\n",
                  "\n",
                  "\n",
                  "class ", "T2103", ":\n",
                  post ]
            ∧ file tables Series.C "T2117" =
              concat
                [ "from homeassistant.components.vacuum import VacuumEntityFeature\n",
                  "from .base import RoboVacEntityFeature, RobovacCommand\n",
                  "\n",
                  "\n",
                  "class ", "T2117", ":\n",
                  post ] :=
  ⟨by decide, by decide, by decide, by decide,
    descriptor_depends_on_flags Series.C "T2103" "T2117" (by decide) (by decide) (by decide)
      (by decide)⟩

end Robovac
